import Mathlib

/-!
Verification development for the hospital master-DB reconciliation pipeline.

Strings are modelled as lists of Unicode code points (`Str := List Nat`),
matching Python's code-point string semantics.  Each definition embeds the
corresponding Python function of the repository (named after it); the
library functions the code calls (`mojimoji`, `hashids`, the `pandas` date
parser) are embedded from their reference behaviour on the fragment the
repository exercises.
-/

namespace HospitalDB

/-- Strings as lists of Unicode code points (Python string semantics). -/
abbrev Str := List Nat

/-- Code points of a Lean string literal, for readable concrete values. -/
def codes (s : String) : Str := s.data.map Char.toNat

/-- Pair of code points, for the kana conversion tables. -/
def cp (a b : Char) : Nat × Nat := (a.toNat, b.toNat)

/-- Unicode white-space code points recognized by Python's `str.strip` and
by `\s` in a Unicode regex (the fragment relevant to this data). -/
def spaceClass : List Nat :=
  [0x09, 0x0A, 0x0B, 0x0C, 0x0D, 0x1C, 0x1D, 0x1E, 0x1F, 0x20, 0x85, 0xA0,
   0x1680, 0x2000, 0x2001, 0x2002, 0x2003, 0x2004, 0x2005, 0x2006, 0x2007,
   0x2008, 0x2009, 0x200A, 0x2028, 0x2029, 0x202F, 0x205F, 0x3000]

/-- Python `str.strip()`: drop leading and trailing white space. -/
def pyStrip (s : Str) : Str :=
  ((s.dropWhile (spaceClass.contains ·)).reverse.dropWhile
    (spaceClass.contains ·)).reverse

/-- Python `str.lower()` on the scripts this data uses: ASCII and
full-width Latin capitals are lowered, everything else is unchanged. -/
def pyLowerC (c : Nat) : Nat :=
  if 0x41 ≤ c ∧ c ≤ 0x5A then c + 0x20
  else if 0xFF21 ≤ c ∧ c ≤ 0xFF3A then c + 0x20
  else c

def pyLower (s : Str) : Str := s.map pyLowerC

/-- Python `str.upper()` on the same fragment. -/
def pyUpperC (c : Nat) : Nat :=
  if 0x61 ≤ c ∧ c ≤ 0x7A then c - 0x20
  else if 0xFF41 ≤ c ∧ c ≤ 0xFF5A then c - 0x20
  else c

def pyUpper (s : Str) : Str := s.map pyUpperC

/-- Unicode decimal-digit code points (`\d`, `str.isdigit`) for the scripts
this data uses: ASCII and full-width digits. -/
def isDigitCp (c : Nat) : Bool :=
  decide (0x30 ≤ c ∧ c ≤ 0x39) || decide (0xFF10 ≤ c ∧ c ≤ 0xFF19)

/-! ### mojimoji width conversion -/

/-- `mojimoji.zen_to_han` on one code point with `digit=True, ascii=True`:
full-width ASCII (U+FF01–U+FF5E) and the ideographic space become
half-width; used with `kana=False` this is the whole conversion. -/
def zenToHanC (c : Nat) : Nat :=
  if 0xFF01 ≤ c ∧ c ≤ 0xFF5E then c - 0xFEE0
  else if c = 0x3000 then 0x20
  else c

/-- `mojimoji.zen_to_han(text, kana=False)`. -/
def zenToHanNoKana (s : Str) : Str := s.map zenToHanC

/-- Half-width katakana (U+FF61–U+FF9F) to full-width, as in mojimoji. -/
def hanKanaBase : List (Nat × Nat) :=
  [cp '｡' '。', cp '｢' '「', cp '｣' '」', cp '､' '、', cp '･' '・',
   cp 'ｦ' 'ヲ', cp 'ｧ' 'ァ', cp 'ｨ' 'ィ', cp 'ｩ' 'ゥ', cp 'ｪ' 'ェ',
   cp 'ｫ' 'ォ', cp 'ｬ' 'ャ', cp 'ｭ' 'ュ', cp 'ｮ' 'ョ', cp 'ｯ' 'ッ',
   cp 'ｰ' 'ー', cp 'ｱ' 'ア', cp 'ｲ' 'イ', cp 'ｳ' 'ウ', cp 'ｴ' 'エ',
   cp 'ｵ' 'オ', cp 'ｶ' 'カ', cp 'ｷ' 'キ', cp 'ｸ' 'ク', cp 'ｹ' 'ケ',
   cp 'ｺ' 'コ', cp 'ｻ' 'サ', cp 'ｼ' 'シ', cp 'ｽ' 'ス', cp 'ｾ' 'セ',
   cp 'ｿ' 'ソ', cp 'ﾀ' 'タ', cp 'ﾁ' 'チ', cp 'ﾂ' 'ツ', cp 'ﾃ' 'テ',
   cp 'ﾄ' 'ト', cp 'ﾅ' 'ナ', cp 'ﾆ' 'ニ', cp 'ﾇ' 'ヌ', cp 'ﾈ' 'ネ',
   cp 'ﾉ' 'ノ', cp 'ﾊ' 'ハ', cp 'ﾋ' 'ヒ', cp 'ﾌ' 'フ', cp 'ﾍ' 'ヘ',
   cp 'ﾎ' 'ホ', cp 'ﾏ' 'マ', cp 'ﾐ' 'ミ', cp 'ﾑ' 'ム', cp 'ﾒ' 'メ',
   cp 'ﾓ' 'モ', cp 'ﾔ' 'ヤ', cp 'ﾕ' 'ユ', cp 'ﾖ' 'ヨ', cp 'ﾗ' 'ラ',
   cp 'ﾘ' 'リ', cp 'ﾙ' 'ル', cp 'ﾚ' 'レ', cp 'ﾛ' 'ロ', cp 'ﾜ' 'ワ',
   cp 'ﾝ' 'ン', cp 'ﾞ' '゛', cp 'ﾟ' '゜']

/-- Half-width katakana that combine with the voiced mark U+FF9E. -/
def hanKanaVoiced : List (Nat × Nat) :=
  [cp 'ｶ' 'ガ', cp 'ｷ' 'ギ', cp 'ｸ' 'グ', cp 'ｹ' 'ゲ', cp 'ｺ' 'ゴ',
   cp 'ｻ' 'ザ', cp 'ｼ' 'ジ', cp 'ｽ' 'ズ', cp 'ｾ' 'ゼ', cp 'ｿ' 'ゾ',
   cp 'ﾀ' 'ダ', cp 'ﾁ' 'ヂ', cp 'ﾂ' 'ヅ', cp 'ﾃ' 'デ', cp 'ﾄ' 'ド',
   cp 'ﾊ' 'バ', cp 'ﾋ' 'ビ', cp 'ﾌ' 'ブ', cp 'ﾍ' 'ベ', cp 'ﾎ' 'ボ',
   cp 'ｳ' 'ヴ']

/-- Half-width katakana that combine with the semi-voiced mark U+FF9F. -/
def hanKanaSemi : List (Nat × Nat) :=
  [cp 'ﾊ' 'パ', cp 'ﾋ' 'ピ', cp 'ﾌ' 'プ', cp 'ﾍ' 'ペ', cp 'ﾎ' 'ポ']

def hanSingle (c : Nat) : Nat := (hanKanaBase.lookup c).getD c

/-- `mojimoji.han_to_zen(text, digit=False, ascii=False)`: only half-width
kana are converted, a trailing voiced/semi-voiced mark combining with the
preceding kana into one full-width code point. -/
def hanToZenKana : Str → Str
  | [] => []
  | [c] => [hanSingle c]
  | c :: c2 :: rest =>
    if c2 = 0xFF9E then
      match hanKanaVoiced.lookup c with
      | some z => z :: hanToZenKana rest
      | none => hanSingle c :: hanToZenKana (c2 :: rest)
    else if c2 = 0xFF9F then
      match hanKanaSemi.lookup c with
      | some z => z :: hanToZenKana rest
      | none => hanSingle c :: hanToZenKana (c2 :: rest)
    else hanSingle c :: hanToZenKana (c2 :: rest)

/-- `mojimoji.zen_to_han` with all defaults (`kana=True`) on one code
point: full-width kana decompose to half-width (voiced forms becoming two
code points), full-width ASCII and the ideographic space become
half-width. -/
def zenToHanKanaC (c : Nat) : Str :=
  match hanKanaVoiced.find? (fun q => q.2 == c) with
  | some q => [q.1, 0xFF9E]
  | none =>
    match hanKanaSemi.find? (fun q => q.2 == c) with
    | some q => [q.1, 0xFF9F]
    | none =>
      match hanKanaBase.find? (fun q => q.2 == c) with
      | some q => [q.1]
      | none => [zenToHanC c]

/-- `mojimoji.zen_to_han(text)` with all default flags. -/
def zenToHanAll (s : Str) : Str := (s.map zenToHanKanaC).flatten

/-! ### Kanji numerals, title stripping, symbol removal -/

/-- `str.maketrans("一二三四五六七八九〇", "1234567890")`. -/
def kanjiNumTable : List (Nat × Nat) :=
  [cp '一' '1', cp '二' '2', cp '三' '3', cp '四' '4', cp '五' '5',
   cp '六' '6', cp '七' '7', cp '八' '8', cp '九' '9', cp '〇' '0']

/-- `text.translate(KANJI_NUM_MAP)`. -/
def kanjiTr (s : Str) : Str := s.map (fun c => (kanjiNumTable.lookup c).getD c)

/-- One pass of Python `s.replace(t, "")`: scan left to right, delete each
non-overlapping occurrence of `t`, continue after the deleted text.  The
fuel argument (instantiated with `s.length`) only makes the recursion
structural; each step consumes at least one code point of `s`. -/
def repGo (t : Str) : Nat → Str → Str
  | _, [] => []
  | 0, s => s
  | fuel + 1, c :: rest =>
    if t ≠ [] ∧ t.isPrefixOf (c :: rest) then
      repGo t fuel (List.drop (t.length - 1) rest)
    else
      c :: repGo t fuel rest

/-- Python `s.replace(t, "")`. -/
def replaceAll (s t : Str) : Str := repGo t s.length s

/-- `for title in titles: text = text.replace(title, "")`. -/
def stripTitles (titles : List Str) (s : Str) : Str :=
  titles.foldl (fun acc t => replaceAll acc t) s

/-- `re.sub('[...]+', '', text)` for a character class: delete every
occurrence of a class member. -/
def classRemove (cls : List Nat) (s : Str) : Str :=
  s.filter (fun c => !(cls.contains c))

/-- Dash variants deleted by every normalizer profile. -/
def hyphenClass : List Nat := [0x2D, 0x2010, 0xFF0D, 0x30FC, 0x2015]

/-- Removal class of step5/step6: `[\s\-‐－ー―丁目番地号ビル階F棟室]`. -/
def cls56 : List Nat := spaceClass ++ hyphenClass ++ codes "丁目番地号ビル階F棟室"

/-- Removal class of step2: `[\s\-‐－ー―丁目番地号]`. -/
def cls2 : List Nat := spaceClass ++ hyphenClass ++ codes "丁目番地号"

/-- Removal class of the registry build: `[\s\-‐－ー―]`. -/
def clsR : List Nat := spaceClass ++ hyphenClass

/-- `CORP_TITLES` of step5 and step6 (identical lists). -/
def corpTitles56 : List Str :=
  [codes "株式会社", codes "有限会社", codes "合同会社", codes "合資会社",
   codes "合名会社", codes "医療法人", codes "医療法人社団",
   codes "医療法人財団", codes "社団法人", codes "財団法人",
   codes "一般社団法人", codes "一般財団法人", codes "公益社団法人",
   codes "公益財団法人", codes "社会福祉法人", codes "学校法人",
   codes "宗教法人", codes "NPO法人", codes "特定非営利活動法人",
   codes "(株)", codes "(有)", codes "（株）", codes "（有）"]

/-- `CORP_TITLES` of step2. -/
def corpTitles2 : List Str :=
  [codes "株式会社", codes "有限会社", codes "合同会社", codes "医療法人",
   codes "社団法人", codes "(株)", codes "(有)"]

/-- `CORP_TITLES` of the registry build; the two `re.sub` patterns
`\(株\)` and `\(有\)` match the literal half-width-parenthesised titles. -/
def corpTitlesR : List Str :=
  [codes "株式会社", codes "有限会社", codes "合同会社", codes "一般社団法人",
   codes "公益社団法人", codes "医療法人", codes "(株)", codes "(有)"]

/-- `normalize_text_for_matching` of step5 and step6 (identical): width
unification, kanji-numeral mapping, title stripping, symbol/unit-token
removal, case fold. -/
def normalize_text_for_matching (s : Str) : Str :=
  pyLower (classRemove cls56
    (stripTitles corpTitles56 (kanjiTr (hanToZenKana (zenToHanNoKana s)))))

/-- `normalize_text` of step2 (no unit tokens beyond 丁目番地号, no case
fold). -/
def normalize_text_step2 (s : Str) : Str :=
  classRemove cls2
    (stripTitles corpTitles2 (kanjiTr (hanToZenKana (zenToHanNoKana s))))

/-- `normalize_text` of the registry build (titles stripped before the
kanji-numeral mapping, then dash/space removal and `strip`). -/
def normalize_text_rebuild (s : Str) : Str :=
  pyStrip (classRemove clsR
    (kanjiTr (stripTitles corpTitlesR (hanToZenKana (zenToHanNoKana s)))))

/-- `normalize_phone` of step2/step6: width-unify then keep only digits. -/
def normalize_phone (s : Str) : Str := (zenToHanAll s).filter isDigitCp

/-! ### Python cell values -/

/-- A raw spreadsheet cell as the Python code sees it: missing (`NaN`), a
structured date (`datetime`/`Timestamp`), an integer, or a string. -/
inductive PyVal where
  | nan : PyVal
  | dt (y m d : Nat) : PyVal
  | int (n : Int) : PyVal
  | str (s : Str) : PyVal
deriving DecidableEq, Repr

/-- Big-endian positional digits over an alphabet of code points, at
least one digit (hashids `_hash`, and with the decimal alphabet Python's
`str()` of a natural number).  The fuel argument only makes the
recursion structural. -/
def hashGo (alphabet : Str) : Nat → Nat → Str → Str
  | 0, _, acc => acc
  | fuel + 1, value, acc =>
    let acc' := alphabet.getD (value % alphabet.length) 0 :: acc
    let v' := value / alphabet.length
    if v' = 0 then acc' else hashGo alphabet fuel v' acc'

def hashNum (value : Nat) (alphabet : Str) : Str :=
  hashGo alphabet (value + 1) value []

/-- The decimal digit characters. -/
def DIGITS : Str := codes "0123456789"

/-- Decimal digits of a natural number, as code points. -/
def natStr (n : Nat) : Str := hashNum n DIGITS

/-- Python `str()` of an integer. -/
def intStr (n : Int) : Str :=
  if n < 0 then 0x2D :: natStr n.natAbs else natStr n.toNat

/-- Left-pad with `0` to the given width (Python `str.zfill`). -/
def zfill (w : Nat) (s : Str) : Str :=
  List.replicate (w - s.length) 0x30 ++ s

/-- `%02d`-style padding used by `strftime`. -/
def pad2 (n : Nat) : Str := zfill 2 (natStr n)

/-- `strftime("%Y/%m/%d")`. -/
def formatDate (y m d : Nat) : Str :=
  zfill 4 (natStr y) ++ [0x2F] ++ pad2 m ++ [0x2F] ++ pad2 d

/-- Python `str()` of a cell value (`datetime` renders ISO with time). -/
def pyStr : PyVal → Str
  | .nan => codes "nan"
  | .dt y m d =>
    zfill 4 (natStr y) ++ [0x2D] ++ pad2 m ++ [0x2D] ++ pad2 d ++
      codes " 00:00:00"
  | .int n => intStr n
  | .str s => s

/-- The code's recurring `["nan", "none", "null", "nat", ""]` guard,
applied to an already-stripped string. -/
def nanWord (s : Str) : Bool :=
  [codes "nan", codes "none", codes "null", codes "nat",
   ([] : Str)].contains (pyLower s)

/-- `clean_val` of the registry build: missing or blank or the string
`nan` becomes `""`, anything else is passed through unchanged. -/
def clean_val (v : PyVal) : PyVal :=
  match v with
  | .nan => .str []
  | v =>
    if pyStrip (pyStr v) = [] ∨ pyLower (pyStr v) = codes "nan" then .str []
    else v

/-- `clean_value` of step7/step8: missing and nan-words become `""`,
anything else becomes its stripped string form. -/
def clean_value (v : PyVal) : Str :=
  match v with
  | .nan => []
  | v =>
    let s := pyStrip (pyStr v)
    if [codes "nan", codes "none", codes "null",
        codes "nat"].contains (pyLower s) then [] else s

/-- `clean_id` of step8: integral numbers print without a decimal point;
strings are stripped, nan-words become `""`, a trailing `.0` is removed. -/
def clean_id (v : PyVal) : Str :=
  match v with
  | .nan => []
  | .int n => intStr n
  | v =>
    let s := pyStrip (pyStr v)
    if nanWord s then []
    else if (codes ".0").isSuffixOf s then s.dropLast.dropLast
    else s

/-! ### Date parsing -/

/-- Numeric value of a digit string (Python `int`, which also accepts
full-width digits). -/
def digitVal (c : Nat) : Nat := if 0xFF10 ≤ c then c - 0xFF10 else c - 0x30

def toNatDigits (s : Str) : Nat := s.foldl (fun acc c => acc * 10 + digitVal c) 0

/-- Proleptic-Gregorian civil date from a count of days since 1970-01-01
(Hinnant's `civil_from_days`). -/
def civilFromDays (z : Int) : Int × Nat × Nat :=
  let z := z + 719468
  let era : Int := (if 0 ≤ z then z else z - 146096) / 146097
  let doe : Nat := (z - era * 146097).toNat
  let yoe : Nat := (doe - doe / 1460 + doe / 36524 - doe / 146096) / 365
  let y : Int := (yoe : Int) + era * 400
  let doy : Nat := doe - (365 * yoe + yoe / 4 - yoe / 100)
  let mp : Nat := (5 * doy + 2) / 153
  let d : Nat := doy - (153 * mp + 2) / 5 + 1
  let m : Nat := if mp < 10 then mp + 3 else mp - 9
  (y + (if m ≤ 2 then 1 else 0), m, d)

/-- `pd.to_datetime(serial, unit='D', origin='1899-12-30')` rendered with
`strftime("%Y/%m/%d")`; 1899-12-30 is 25569 days before 1970-01-01. -/
def formatSerial (n : Int) : Str :=
  let c := civilFromDays (n - 25569)
  formatDate c.1.toNat c.2.1 c.2.2

def isLeap (y : Nat) : Bool := (y % 4 = 0 ∧ y % 100 ≠ 0) ∨ y % 400 = 0

def daysInMonth (y m : Nat) : Nat :=
  if m = 2 then (if isLeap y then 29 else 28)
  else if [4, 6, 9, 11].contains m then 30 else 31

/-- Split a string on a separator code point. -/
def splitOnCp (sep : Nat) : Str → List Str
  | [] => [[]]
  | c :: rest =>
    match splitOnCp sep rest with
    | [] => [[]]
    | h :: t => if c = sep then [] :: h :: t else (c :: h) :: t

def isAsciiDigit (c : Nat) : Bool := decide (0x30 ≤ c ∧ c ≤ 0x39)

/-- Split on `/` when present, else on `-`, else fail. -/
def pdTextParts (s : Str) : List Str :=
  if s.contains 0x2F then splitOnCp 0x2F s
  else if s.contains 0x2D then splitOnCp 0x2D s
  else []

/-- The fragment of the `pd.to_datetime` free-text parser this pipeline
exercises: `YYYY/M/D` and `YYYY-M-D` with calendar validation.  Any other
shape is a parse failure (the library raises, the callers catch). -/
def pdTextDate (s : Str) : Option (Nat × Nat × Nat) :=
  match pdTextParts s with
  | [ys, ms, ds] =>
    if ys.all isAsciiDigit ∧ ms.all isAsciiDigit ∧ ds.all isAsciiDigit ∧
        ys.length = 4 ∧ 1 ≤ ms.length ∧ ms.length ≤ 2 ∧ 1 ≤ ds.length ∧
        ds.length ≤ 2 then
      let y := toNatDigits ys
      let m := toNatDigits ms
      let d := toNatDigits ds
      if 1 ≤ m ∧ m ≤ 12 ∧ 1 ≤ d ∧ d ≤ daysInMonth y m then some (y, m, d)
      else none
    else none
  | _ => none

/-- `parse_date` of the registry build: structured dates format through,
integers are Excel serials valid on [1, 73050] against epoch 1899-12-30,
4–5-digit-only strings are serials too, other strings go through the text
parser with the year clamped to [1950, 2100]; every failure is `""`. -/
def parse_date (v : PyVal) : Str :=
  match v with
  | .nan => []
  | .dt y m d => formatDate y m d
  | .int n => if 1 ≤ n ∧ n ≤ 73050 then formatSerial n else []
  | .str s =>
    let vs := pyStrip s
    if nanWord vs then []
    else if vs.all isDigitCp ∧ vs ≠ [] ∧ 4 ≤ vs.length ∧ vs.length ≤ 5 then
      let serial := toNatDigits vs
      if 1 ≤ serial ∧ serial ≤ 73050 then formatSerial (serial : Int)
      else
        match pdTextDate vs with
        | none => []
        | some (y, m, d) =>
          if y < 1950 ∨ 2100 < y then [] else formatDate y m d
    else
      match pdTextDate vs with
      | none => []
      | some (y, m, d) =>
        if y < 1950 ∨ 2100 < y then [] else formatDate y m d

/-- `parse_date` of step4: no serial-string path, no year clamp, and a
free-text parse failure returns the input string unchanged. -/
def parse_date_step4 (v : PyVal) : Str :=
  match v with
  | .nan => []
  | .dt y m d => formatDate y m d
  | .int n => if 1 ≤ n ∧ n ≤ 73050 then formatSerial n else []
  | .str s =>
    let vs := pyStrip s
    if nanWord vs then []
    else
      match pdTextDate vs with
      | none => vs
      | some (y, m, d) => formatDate y m d

/-! ### Postal-code normalization -/

/-- The width-unified, `〒`-free, stripped postal value. -/
def postalClean (v : Str) : Str :=
  pyStrip (replaceAll (zenToHanAll v) (codes "〒"))

/-- The digits remaining in the cleaned postal value. -/
def postalDigits (v : Str) : Str := (postalClean v).filter isDigitCp

/-- `NNN-NNNN` from a 7-digit string. -/
def hyphen7 (d : Str) : Str := d.take 3 ++ [0x2D] ++ d.drop 3

/-- Shared body of `normalize_postal_code` after the nan guard: width
unification, `〒` removal, digit extraction; `pad0` tells whether a
digit-free input is still zero-padded (step1/rebuild behaviour) or left
alone (step5 behaviour). -/
def postalCore (pad0 : Bool) (v : Str) : Str :=
  let digits := postalDigits v
  let digits :=
    if digits.length ≤ 6 ∧ (pad0 ∨ 1 ≤ digits.length) then zfill 7 digits
    else digits
  if digits.length = 7 then hyphen7 digits
  else postalClean v

/-- Entry guard shared by both variants: numbers print via `str(int(v))`,
other values stringify and strip; nan-words yield `""`. -/
def postalEntry (pad0 : Bool) (v : PyVal) : Str :=
  match v with
  | .nan => []
  | .int n =>
    let s := intStr n
    if nanWord s then [] else postalCore pad0 s
  | v =>
    let s := pyStrip (pyStr v)
    if nanWord s then [] else postalCore pad0 s

/-- `normalize_postal_code` of step1 and the registry build (identical):
zero-pads whenever at most 6 digits remain, even zero of them. -/
def normalize_postal_code_step1 (v : PyVal) : Str := postalEntry true v

/-- `normalize_postal_code` of step5: zero-pads only 1–6 digits. -/
def normalize_postal_code_step5 (v : PyVal) : Str := postalEntry false v

/-- A string of the shape `YYYY/MM/DD`. -/
def isYMDForm (s : Str) : Prop :=
  ∃ ys ms ds : Str,
    s = ys ++ [0x2F] ++ ms ++ [0x2F] ++ ds ∧
    ys.length = 4 ∧ ms.length = 2 ∧ ds.length = 2 ∧
    (∀ c ∈ ys, isAsciiDigit c = true) ∧ (∀ c ∈ ms, isAsciiDigit c = true) ∧
    (∀ c ∈ ds, isAsciiDigit c = true)

/-- The invariants Python's `datetime`/`Timestamp` guarantee for a
structured date value (other cell kinds carry no constraint). -/
def pyDateValid : PyVal → Prop
  | .dt y m d => 1 ≤ y ∧ y ≤ 9999 ∧ 1 ≤ m ∧ m ≤ 12 ∧ 1 ≤ d ∧ d ≤ 31
  | _ => True

/-! ### The identifier issuer (`generate_id`, via the hashids algorithm)

The repository calls `Hashids(salt=ID_SALT, min_length=ID_LENGTH,
alphabet=ID_ALPHABET).encode(index)`; the hashids reference algorithm is
embedded below. -/

def ID_SALT : Str := codes "Financial_System_Secret_Key_2025"

def ID_LENGTH : Nat := 6

def ID_ALPHABET : Str := codes "ABCDEFGHJKMNPQRSTVWXYZ23456789"

/-- hashids' default separator candidates (`cfhistuCFHISTU`). -/
def SEP_CANDIDATES : Str := codes "cfhistuCFHISTU"

/-- hashids `_reorder` (consistent shuffle): swaps positions
`len-1, …, 1`, each partner chosen from the salt.  The first argument is
the position being swapped, used as structural fuel. -/
def reorderGo (salt : Str) : Nat → Nat → Nat → List Nat → List Nat
  | 0, _, _, l => l
  | i + 1, index, isum, l =>
    let intg := salt.getD (index % salt.length) 0
    let isum' := isum + intg
    let j := (intg + index + isum') % (i + 1)
    let a := l.getD (i + 1) 0
    let b := l.getD j 0
    reorderGo salt i (index + 1) isum' ((l.set (i + 1) b).set j a)

def reorder (l : List Nat) (salt : Str) : List Nat :=
  if salt.length = 0 then l else reorderGo salt (l.length - 1) 0 0 l

/-- Keep the first occurrence of each character (`alphabet.index(x) == i`). -/
def dedupKeepFirst (l : Str) : Str :=
  l.foldl (fun acc c => if acc.contains c then acc else acc ++ [c]) []

/-- hashids constructor: split the alphabet into working alphabet,
separators and guards, shuffling each with the salt.  Returns
`(alphabet, separators, guards)`. -/
def hashidsSetup (salt alphabetIn : Str) : Str × Str × Str :=
  let seps0 := SEP_CANDIDATES.filter (alphabetIn.contains ·)
  let alpha0 := (dedupKeepFirst alphabetIn).filter (fun c => !(seps0.contains c))
  let seps1 := reorder seps0 salt
  let minSeps := (2 * alpha0.length + 6) / 7
  let (alpha1, seps2) :=
    if seps1.length = 0 ∨ seps1.length < minSeps then
      let minSeps := if minSeps = 1 then 2 else minSeps
      if seps1.length < minSeps then
        let k := minSeps - seps1.length
        (alpha0.drop k, seps1 ++ alpha0.take k)
      else (alpha0, seps1)
    else (alpha0, seps1)
  let alpha2 := reorder alpha1 salt
  let numGuards := (alpha2.length + 11) / 12
  if alpha2.length < 3 then
    (alpha2, seps2.drop numGuards, seps2.take numGuards)
  else
    (alpha2.drop numGuards, seps2, alpha2.take numGuards)

/-- hashids `_ensure_length`, inner while loop (pads with halves of the
repeatedly self-shuffled alphabet, trimming symmetrically). -/
def ensureGo (minLength : Nat) : Nat → Str → Str → Str
  | 0, _, enc => enc
  | fuel + 1, alphabet, enc =>
    if minLength ≤ enc.length then enc
    else
      let alphabet' := reorder alphabet alphabet
      let half := alphabet'.length / 2
      let enc' := alphabet'.drop half ++ enc ++ alphabet'.take half
      let excess := enc'.length - minLength
      let enc'' :=
        if 0 < excess then (enc'.drop (excess / 2)).take minLength else enc'
      ensureGo minLength fuel alphabet' enc''

/-- hashids `_ensure_length`: guard characters front and back, then the
padding loop. -/
def ensureLength (guards : Str) (alphabet : Str) (minLength vh : Nat)
    (enc : Str) : Str :=
  let enc1 := guards.getD ((vh + enc.getD 0 0) % guards.length) 0 :: enc
  let enc2 :=
    if enc1.length < minLength then
      enc1 ++ [guards.getD ((vh + enc1.getD 2 0) % guards.length) 0]
    else enc1
  ensureGo minLength (minLength + 1) alphabet enc2

/-- hashids `_encode` for a single number, given the setup pieces. -/
def encodeWith (salt alphabet seps guards : Str) (minLength n : Nat) : Str :=
  let vh := n % 100
  let lottery := alphabet.getD (vh % alphabet.length) 0
  let alphabetSalt := (lottery :: (salt ++ alphabet)).take alphabet.length
  let alphabet1 := reorder alphabet alphabetSalt
  let last := hashNum n alphabet1
  let sep := seps.getD ((n % (last.getD 0 0)) % seps.length) 0
  let encoded := ((lottery :: last) ++ [sep]).dropLast
  if minLength ≤ encoded.length then encoded
  else ensureLength guards alphabet1 minLength vh encoded

/-- `generate_id` of the registry build. -/
def generate_id (n : Nat) : Str :=
  let d := hashidsSetup ID_SALT ID_ALPHABET
  encodeWith ID_SALT d.1 d.2.1 d.2.2 ID_LENGTH n

/-- Split a string at every character satisfying the predicate. -/
def splitOnPred (p : Nat → Bool) : Str → List Str
  | [] => [[]]
  | c :: rest =>
    match splitOnPred p rest with
    | [] => [[]]
    | h :: t => if p c then [] :: h :: t else (c :: h) :: t

/-- Base-`|alphabet|` value of a digit string (hashids `_unhash`). -/
def unhash (digits : Str) (alphabet : Str) : Nat :=
  digits.foldl (fun acc c => acc * alphabet.length + alphabet.indexOf c) 0

/-- Decoder used as an injectivity certificate for `generate_id`: strip
the guard characters, read the lottery character, rebuild the shuffled
alphabet and unhash the remaining digits. -/
def decodeWith (salt alphabet guards : Str) (code : Str) : Nat :=
  let parts := splitOnPred (guards.contains ·) code
  let core :=
    if parts.length = 2 ∨ parts.length = 3 then parts.getD 1 []
    else parts.getD 0 []
  match core with
  | [] => 0
  | lottery :: rest =>
    let alphabetSalt := (lottery :: (salt ++ alphabet)).take alphabet.length
    let alphabet1 := reorder alphabet alphabetSalt
    unhash rest alphabet1

/-! ### Step 8: reflecting external ids into the master registry -/

/-- `FIXED_WHOLESALER_NAME`. -/
def FIXED_WHOLESALER : Str := codes "アスコ"

/-- Python `<` on strings: code-point lexicographic order. -/
def lexLt : Str → Str → Bool
  | [], [] => false
  | [], _ :: _ => true
  | _ :: _, [] => false
  | a :: as, b :: bs => a < b || (a == b && lexLt as bs)

/-- Ascending sorted list of the distinct elements: the semantics of
pandas `groupby` keys and of Python `sorted(set(xs))`. -/
def sortDedup (l : List Str) : List Str :=
  (l.insertionSort (fun a b => lexLt a b = true)).dedup

/-- A row of `id_mapping.xlsx` as step8 reads it: the detected UID
column, `卸側施設ID`, and `卸業者名`. -/
structure MapRow8 where
  uid : PyVal
  extId : PyVal
  wholesaler : PyVal

/-- A master row for the reflection step: the value of the UID column
(the join key); the remaining columns ride along untouched. -/
structure MasterRow8 where
  uid : Str
deriving DecidableEq

/-- Step8 lines 208–228: optional wholesaler filter, column cleaning,
and removal of rows with an empty uid or external id; each surviving row
becomes its `(cleaned uid, cleaned external id)` pair. -/
def qualRows (hasWholesalerCol : Bool) (mapping : List MapRow8) :
    List (Str × Str) :=
  let f :=
    if hasWholesalerCol then
      mapping.filter (fun r => clean_value r.wholesaler == FIXED_WHOLESALER)
    else mapping
  (f.map (fun r => (clean_value r.uid, clean_id r.extId))).filter
    (fun p => !(p.1.isEmpty) && !(p.2.isEmpty))

/-- The sorted-and-joined external ids of one uid:
`", ".join(sorted(set(x)))`. -/
def joinedIds (rows : List (Str × Str)) (u : Str) : Str :=
  List.intercalate [0x2C, 0x20] (sortDedup ((rows.filter (·.1 = u)).map (·.2)))

/-- `groupby(uid)[extId].apply(...)`: one row per distinct uid. -/
def groupedTable (rows : List (Str × Str)) : List (Str × Str) :=
  (sortDedup (rows.map (·.1))).map (fun u => (u, joinedIds rows u))

/-- `pd.merge(df_master, df_grouped, on=uid, how="left")` followed by
`fillna("")`: each master row is emitted once per matching grouped row,
or once with `""` when nothing matches. -/
def leftJoinFill (master : List MasterRow8) (g : List (Str × Str)) :
    List (MasterRow8 × Str) :=
  master.flatMap (fun r =>
    match g.filter (fun p => p.1 = r.uid) with
    | [] => [(r, [])]
    | ms => ms.map (fun p => (r, p.2)))

/-- `step8_reflect_id_to_master`, data part (lines 199–263): filter and
clean the mapping, group by uid, left-join onto the master, fill gaps
with `""`.  The caller then verifies that the row count is unchanged. -/
def step8_reflect (hasWholesalerCol : Bool) (master : List MasterRow8)
    (mapping : List MapRow8) : List (MasterRow8 × Str) :=
  leftJoinFill master (groupedTable (qualRows hasWholesalerCol mapping))

/-! ### Step 7: merging the mapping table -/

/-- The UID column aliases of step7/step8 (`uid_patterns`). -/
def uidPatterns : List Str :=
  [codes "自社UID", codes "施設UID", codes "UID", codes "自社ID",
   codes "動物病院UID"]

/-- Python `needle in haystack` substring test. -/
def containsSub (needle : Str) : Str → Bool
  | [] => needle.isEmpty
  | c :: rest => needle.isPrefixOf (c :: rest) || containsSub needle rest

/-- The per-column test of `find_uid_column`: exact alias OR the upper-
cased stripped name contains `UID`. -/
def uidColPred (c : Str) : Bool :=
  uidPatterns.contains (pyStrip c) ||
    containsSub (codes "UID") (pyUpper (pyStrip c))

/-- `find_uid_column` of step7/step8: one left-to-right scan, each column
tried against both tests before moving on. -/
def find_uid_column (cols : List Str) : Option Str := cols.find? uidColPred

/-- A spreadsheet table: column names and rows of cells by position. -/
structure Table where
  cols : List Str
  rows : List (List PyVal)

/-- `row[c]`: missing columns read as `NaN`. -/
def getCell (cols : List Str) (row : List PyVal) (c : Str) : PyVal :=
  if cols.contains c then row.getD (cols.indexOf c) .nan else .nan

/-- `row.get(c, d)`. -/
def getCellD (cols : List Str) (row : List PyVal) (c : Str) (d : PyVal) :
    PyVal :=
  if cols.contains c then row.getD (cols.indexOf c) .nan else d

/-- Overwrite one cell. -/
def setCell (cols : List Str) (row : List PyVal) (c : Str) (v : PyVal) :
    List PyVal :=
  if cols.contains c then row.set (cols.indexOf c) v else row

/-- A canonical mapping row (`FINAL_COLUMNS` of step7). -/
structure MRow where
  uid : Str
  name : Str
  wholesaler : Str
  extId : Str
  startDate : Str
deriving DecidableEq, Repr

/-- The column test used inside `standardize_columns` (line 93: no
strip, unlike `find_uid_column`). -/
def std7UidPred (c : Str) : Bool :=
  uidPatterns.contains c || containsSub (codes "UID") (pyUpper c)

/-- One row of `standardize_columns` (step7 lines 118–136): clean the
uid, skip the row if it comes out empty, otherwise harvest the columns
into the canonical shape, defaulting the wholesaler name. -/
def stdRow (uc : Str) (widCol nameCol : Option Str) (cols : List Str)
    (row : List PyVal) : Option MRow :=
  let uidVal := clean_value (getCell cols row uc)
  if uidVal = [] then none
  else some
    { uid := uidVal
      name := match nameCol with
        | some nc => clean_value (getCell cols row nc)
        | none => []
      wholesaler :=
        let w := clean_value
          (getCellD cols row (codes "卸業者名") (.str FIXED_WHOLESALER))
        if w = [] then FIXED_WHOLESALER else w
      extId := match widCol with
        | some wc => clean_value (getCell cols row wc)
        | none => []
      startDate :=
        clean_value (getCellD cols row (codes "適用開始日") (.str [])) }

/-- `standardize_columns` of step7: resolve the UID / external-id /
facility-name columns, then harvest each row with a non-empty cleaned
uid into the canonical shape. -/
def standardize_columns (t : Table) : List MRow :=
  if t.rows.isEmpty then []
  else
    match t.cols.find? std7UidPred with
    | none => []
    | some uc =>
      let widCol :=
        [codes "卸側施設ID", codes "得意先コード"].find? (t.cols.contains ·)
      let nameCol :=
        [codes "施設名(確認用)", codes "得意先名称", codes "卸側名称(参考)",
         codes "動物病院施設名"].find? (t.cols.contains ·)
      t.rows.filterMap (stdRow uc widCol nameCol t.cols)

/-- Step7 lines 192–197: clean the detected UID column of the unmatched
table, keep only rows whose cleaned uid is non-empty. -/
def admittedManualRows (t : Table) : List (List PyVal) :=
  match find_uid_column t.cols with
  | none => []
  | some uc =>
    (t.rows.map (fun row =>
      setCell t.cols row uc (.str (clean_value (getCell t.cols row uc))))).filter
      (fun row => getCell t.cols row uc ≠ PyVal.str [])

/-- Step7 lines 185–204: the manually resolved rows, renamed and
standardized. -/
def manualClean (t : Table) : List MRow :=
  match find_uid_column t.cols with
  | none => []
  | some uc =>
    let kept := admittedManualRows t
    if kept.isEmpty then []
    else
      standardize_columns
        ⟨t.cols.map (fun c => if c = uc then codes "自社UID" else c), kept⟩

def mrowKey (r : MRow) : Str × Str := (r.uid, r.extId)

/-- Keep the first row of each `(uid, externalId)` key. -/
def dedupKeepFirstBy : List (Str × Str) → List MRow → List MRow
  | _, [] => []
  | seen, r :: rest =>
    if seen.contains (mrowKey r) then dedupKeepFirstBy seen rest
    else r :: dedupKeepFirstBy (mrowKey r :: seen) rest

/-- pandas `drop_duplicates(subset=[uid, extId], keep='last')`: surviving
rows keep their original order, each key keeping its last occurrence. -/
def dedupKeepLast (l : List MRow) : List MRow :=
  (dedupKeepFirstBy [] l.reverse).reverse

/-- `step7_merge_final`, data part: standardize the automatic and manual
inputs, abort (leaving the stored table unchanged) when nothing new,
otherwise append to the existing table, deduplicate on `(uid, extId)`
keeping the last row, clean the external id and drop empties. -/
def mergeFinal (existing : List MRow) (auto manual : Table) : List MRow :=
  let newData := standardize_columns auto ++ manualClean manual
  if newData.isEmpty then existing
  else
    ((dedupKeepLast (existing ++ newData)).map
      (fun r => { r with extId := clean_value (.str r.extId) })).filter
      (fun r => !r.extId.isEmpty)

/-- `FINAL_COLUMNS` of step7. -/
def FINAL_COLUMNS : List Str :=
  [codes "自社UID", codes "施設名(確認用)", codes "卸業者名",
   codes "卸側施設ID", codes "適用開始日"]

/-- The merged table as step7 stores it (`to_excel`) and a later run
reads it back (`read_excel`): the five canonical columns with each cell
holding the row's string. -/
def tableOfMRows (l : List MRow) : Table :=
  ⟨FINAL_COLUMNS,
   l.map (fun r => [.str r.uid, .str r.name, .str r.wholesaler,
     .str r.extId, .str r.startDate])⟩

/-! ### Step 6: the match engine -/

/-- A raw cell normalized for matching (`NaN` yields `""`). -/
def normValMatching (v : PyVal) : Str :=
  match v with
  | .nan => []
  | v => normalize_text_for_matching (pyStr v)

/-- A raw cell's digits-only phone key (`NaN` yields `""`). -/
def phoneVal (v : PyVal) : Str :=
  match v with
  | .nan => []
  | v => normalize_phone (pyStr v)

/-- The master columns the match engine reads. -/
structure MasterRec6 where
  uid : PyVal
  name : PyVal
  addr : PyVal
  tel : PyVal
  priceDate : PyVal
deriving DecidableEq, Repr

/-- A row of the normalized billing list; `Option` marks columns that may
be absent from the sheet. -/
structure ExtRec where
  code : PyVal
  name : PyVal
  addrKey : Option PyVal
  nameKey : Option PyVal
  addrFull : Option PyVal
  tel1 : Option PyVal
  tel2 : Option PyVal
deriving DecidableEq, Repr

/-- `MatchKey_Addr`: normalized address plus first two characters of the
normalized facility name. -/
def matchKeyAddr (m : MasterRec6) : Str :=
  normValMatching m.addr ++ (normValMatching m.name).take 2

/-- `MatchKey_Tel` (empty for every row when the master lacks the phone
column). -/
def matchKeyTel (hasTel : Bool) (m : MasterRec6) : Str :=
  if hasTel then phoneVal m.tel else []

/-- Step6 lines 172–176: use the precomputed address key when present
and not `NaN`, otherwise normalize `住所フル` on the spot. -/
def extNormAddr (r : ExtRec) : Str :=
  match r.addrKey with
  | some v =>
    if v ≠ .nan then pyStr v
    else normalize_text_for_matching (pyStr (r.addrFull.getD (.str [])))
  | none => normalize_text_for_matching (pyStr (r.addrFull.getD (.str [])))

/-- Step6 lines 178–181: likewise for the name key. -/
def extNormName (r : ExtRec) : Str :=
  match r.nameKey with
  | some v => if v ≠ .nan then pyStr v else normValMatching r.name
  | none => normValMatching r.name

/-- The billing-side address+name key. -/
def extBillKey (r : ExtRec) : Str := extNormAddr r ++ (extNormName r).take 2

/-- Step6 lines 190–194: the first present-and-not-`NaN` of `電話番号`
and `TEL`, digits only. -/
def extBillTel (r : ExtRec) : Str :=
  match r.tel1 with
  | some v =>
    if v ≠ .nan then phoneVal v
    else
      match r.tel2 with
      | some w => if w ≠ .nan then phoneVal w else []
      | none => []
  | none =>
    match r.tel2 with
    | some w => if w ≠ .nan then phoneVal w else []
    | none => []

/-- A produced mapping-candidate row. -/
structure MapOut where
  uid : PyVal
  name : PyVal
  wholesaler : Str
  extId : PyVal
  extName : PyVal
  startDate : PyVal
  method : Str
deriving DecidableEq, Repr

/-- A produced unmatched row. -/
structure UnmOut where
  code : PyVal
  name : PyVal
  addrFull : PyVal
  key : Str
  status : Str
deriving DecidableEq, Repr

/-- The per-record match of step6 (lines 183–222): address+name lookup
first; on failure the phone lookup, attempted only for a ≥ 9-digit key;
multi-candidate lookups take the first row in table order. -/
def step6_match (hasTel : Bool) (master : List MasterRec6) (r : ExtRec) :
    Sum MapOut UnmOut :=
  match master.filter (fun m => matchKeyAddr m == extBillKey r) with
  | mr :: _ => .inl ⟨mr.uid, mr.name, FIXED_WHOLESALER, r.code, r.name,
      mr.priceDate, codes "住所+名前"⟩
  | [] =>
    if extBillTel r ≠ [] ∧ 9 ≤ (extBillTel r).length then
      match master.filter (fun m => matchKeyTel hasTel m == extBillTel r) with
      | mr :: _ => .inl ⟨mr.uid, mr.name, FIXED_WHOLESALER, r.code, r.name,
          mr.priceDate, codes "電話番号"⟩
      | [] => .inr ⟨r.code, r.name, r.addrFull.getD (.str []), extBillKey r,
          codes "未マッチ"⟩
    else .inr ⟨r.code, r.name, r.addrFull.getD (.str []), extBillKey r,
      codes "未マッチ"⟩

/-- The whole matching loop: the matched and unmatched output lists. -/
def step6_run (hasTel : Bool) (master : List MasterRec6)
    (recs : List ExtRec) : List MapOut × List UnmOut :=
  (recs.filterMap (fun r => (step6_match hasTel master r).getLeft?),
   recs.filterMap (fun r => (step6_match hasTel master r).getRight?))

/-! ### The registry build (`rebuild_master`) -/

/-- A raw cell through the registry build's `normalize_text`. -/
def normValRebuild (v : PyVal) : Str :=
  match v with
  | .nan => []
  | v => normalize_text_rebuild (pyStr v)

/-- An input row of the registry build, by `COL_MAP` column. -/
structure InRow where
  name : PyVal
  legal : PyVal
  rep : PyVal
  zip : PyVal
  addr : PyVal
  tel : PyVal
  email : PyVal
  invoice : PyVal
  appDate : PyVal
  priceDate : PyVal
  cancelDate : PyVal
deriving DecidableEq, Repr

/-- A created master row. -/
structure MasterNew where
  uid : Str
  name : PyVal
  legal : PyVal
  rep : PyVal
  zip : Str
  addr : PyVal
  tel : PyVal
  email : PyVal
  invoice : PyVal
  appDate : Str
  priceDate : Str
  activeFlag : Nat
  cancelDate : Str
deriving DecidableEq, Repr

/-- The master row materialized for the `seq`-th kept input row
(lines 225–245). -/
def masterOf (seq : Nat) (r : InRow) : MasterNew :=
  { uid := generate_id seq
    name := clean_val r.name
    legal := clean_val r.legal
    rep := clean_val r.rep
    zip := normalize_postal_code_step1 r.zip
    addr := clean_val r.addr
    tel := clean_val r.tel
    email := clean_val r.email
    invoice := clean_val r.invoice
    appDate := parse_date r.appDate
    priceDate := parse_date r.priceDate
    activeFlag := if parse_date r.priceDate ≠ [] then 1 else 0
    cancelDate := parse_date r.cancelDate }

/-- The within-batch dedup key `normalize(address) + normalize(phone)`. -/
def dedupKeyR (r : InRow) : Str :=
  normValRebuild r.addr ++ normValRebuild r.tel

/-- The build loop (lines 217–253): skip rows with a missing address or
phone, skip previously seen dedup keys, and issue sequence numbers only
on kept rows. -/
def buildGo (seen : List Str) (seq : Nat) : List InRow → List MasterNew
  | [] => []
  | r :: rest =>
    if r.addr = PyVal.nan ∨ r.tel = PyVal.nan then buildGo seen seq rest
    else if seen.contains (dedupKeyR r) then buildGo seen seq rest
    else masterOf (seq + 1) r :: buildGo (dedupKeyR r :: seen) (seq + 1) rest

/-- `rebuild_master`, data part. -/
def rebuild_master (rows : List InRow) : List MasterNew := buildGo [] 0 rows

/-- The invariant satisfied by every character of a normalized matching
key: no full-width ASCII or ideographic space, no half-width kana, no
kanji numeral, nothing from the removal class. -/
def matchKeyChar (cls : List Nat) (c : Nat) : Prop :=
  ¬(0xFF01 ≤ c ∧ c ≤ 0xFF5E) ∧ c ≠ 0x3000 ∧
  ¬(0xFF61 ≤ c ∧ c ≤ 0xFF9F) ∧
  kanjiNumTable.lookup c = none ∧ c ∉ cls

/-- The claim's description of which rows are kept, used as the
specification side of the refinement: a row is kept iff address and
phone are present and its dedup key has not been seen on an earlier kept
row. -/
def keptRows_spec (seen : List Str) : List InRow → List InRow
  | [] => []
  | r :: rest =>
    if r.addr ≠ PyVal.nan ∧ r.tel ≠ PyVal.nan ∧ ¬ seen.contains (dedupKeyR r)
    then r :: keptRows_spec (dedupKeyR r :: seen) rest
    else keptRows_spec seen rest

/-- The working alphabet `hashidsSetup ID_SALT ID_ALPHABET` produces
(established below in `hashidsSetup_eq`). -/
def ALPHA : Str := codes "7NZ46VEWJPRK8YQX95G2"

/-- The separator set of the same setup. -/
def SEPS : Str := codes "STFHCABD"

/-- The guard set of the same setup. -/
def GUARDS : Str := codes "M3"

/-! ### Lemmas about the reflection step -/

theorem sortDedup_nodup (l : List Str) : (sortDedup l).Nodup :=
  List.nodup_dedup _

theorem mem_sortDedup {x : Str} {l : List Str} :
    x ∈ sortDedup l ↔ x ∈ l := by
  unfold sortDedup
  rw [List.mem_dedup]
  exact (List.perm_insertionSort _ l).mem_iff

theorem filter_eq_nil_of_not_mem {l : List Str} {k : Str} (h : k ∉ l) :
    l.filter (fun u => u = k) = [] := by
  induction l with
  | nil => rfl
  | cons a t ih =>
    simp only [List.mem_cons, not_or] at h
    have hak : a ≠ k := fun hh => h.1 hh.symm
    simp [List.filter_cons, hak, ih h.2]

theorem nodup_filter_len_le {l : List Str} (h : l.Nodup) (k : Str) :
    (l.filter (fun u => u = k)).length ≤ 1 := by
  induction l with
  | nil => simp
  | cons a t ih =>
    rcases List.nodup_cons.mp h with ⟨ha, ht⟩
    by_cases hak : a = k
    · subst hak
      rw [List.filter_cons_of_pos (by simp), filter_eq_nil_of_not_mem ha]
      simp
    · rw [List.filter_cons_of_neg (by simpa using hak)]
      exact ih ht

theorem groupedTable_filter (rows : List (Str × Str)) (k : Str) :
    (groupedTable rows).filter (fun p => p.1 = k) =
      ((sortDedup (rows.map (·.1))).filter (fun u => u = k)).map
        (fun u => (u, joinedIds rows u)) := by
  unfold groupedTable
  rw [List.filter_map]
  rfl

theorem groupedTable_key_len (rows : List (Str × Str)) (k : Str) :
    ((groupedTable rows).filter (fun p => p.1 = k)).length ≤ 1 := by
  rw [groupedTable_filter, List.length_map]
  exact nodup_filter_len_le (sortDedup_nodup _) k

theorem leftJoinFill_length (master : List MasterRow8)
    (g : List (Str × Str)) (hg : ∀ k, (g.filter (fun p => p.1 = k)).length ≤ 1) :
    (leftJoinFill master g).length = master.length := by
  induction master with
  | nil => rfl
  | cons r t ih =>
    unfold leftJoinFill at ih ⊢
    rw [List.flatMap_cons, List.length_append, ih]
    have hle := hg r.uid
    cases hm : g.filter (fun p => p.1 = r.uid) with
    | nil => simp [Nat.add_comm]
    | cons q qs =>
      rw [hm] at hle
      cases qs with
      | nil => simp [Nat.add_comm]
      | cons q2 qs2 => simp at hle

theorem mem_leftJoinFill {pr : MasterRow8 × Str} {master : List MasterRow8}
    {g : List (Str × Str)} (h : pr ∈ leftJoinFill master g) :
    pr.1 ∈ master ∧
      ((g.filter (fun p => p.1 = pr.1.uid) = [] ∧ pr.2 = []) ∨
        (pr.1.uid, pr.2) ∈ g) := by
  rcases List.mem_flatMap.mp h with ⟨r, hr, hpr⟩
  match hm : g.filter (fun p => p.1 = r.uid) with
  | [] =>
    rw [hm] at hpr
    simp only [List.mem_singleton] at hpr
    subst hpr
    exact ⟨hr, Or.inl ⟨hm, rfl⟩⟩
  | q :: qs =>
    rw [hm] at hpr
    rcases List.mem_map.mp hpr with ⟨p, hp, hpe⟩
    have hpg : p ∈ g.filter (fun p => p.1 = r.uid) := hm ▸ hp
    have hkey : p.1 = r.uid := by
      have := List.of_mem_filter hpg
      simpa using this
    subst hpe
    refine ⟨hr, Or.inr ?_⟩
    have hpg' : p ∈ g := List.mem_of_mem_filter hpg
    rw [← hkey]
    exact hpg'

/-- Membership in a qualifying pair traces back to a mapping row that
passes the wholesaler filter and carries non-empty cleaned fields. -/
theorem mem_qualRows {hasCol : Bool} {mapping : List MapRow8}
    {q : Str × Str} :
    q ∈ qualRows hasCol mapping ↔
      ∃ m ∈ mapping,
        (hasCol = false ∨ clean_value m.wholesaler = FIXED_WHOLESALER) ∧
        clean_value m.uid = q.1 ∧ clean_id m.extId = q.2 ∧
        q.1 ≠ [] ∧ q.2 ≠ [] := by
  unfold qualRows
  constructor
  · intro h
    have hcond := List.of_mem_filter h
    have hmem := List.mem_of_mem_filter h
    rcases List.mem_map.mp hmem with ⟨m, hm, he⟩
    have hm' : m ∈ mapping ∧
        (hasCol = false ∨ clean_value m.wholesaler = FIXED_WHOLESALER) := by
      cases hasCol with
      | false => simpa using hm
      | true =>
        simp only [if_pos rfl] at hm
        exact ⟨List.mem_of_mem_filter hm,
          Or.inr (by simpa using List.of_mem_filter hm)⟩
    obtain ⟨hq1, hq2⟩ : clean_value m.uid = q.1 ∧ clean_id m.extId = q.2 :=
      ⟨congrArg Prod.fst he, congrArg Prod.snd he⟩
    have hc : q.1 ≠ [] ∧ q.2 ≠ [] := by
      constructor <;> intro hq <;> simp [hq] at hcond
    exact ⟨m, hm'.1, hm'.2, hq1, hq2, hc.1, hc.2⟩
  · rintro ⟨m, hm, hw, h1, h2, h3, h4⟩
    have hmf : m ∈ (if hasCol then
        mapping.filter (fun r => clean_value r.wholesaler == FIXED_WHOLESALER)
      else mapping) := by
      cases hasCol with
      | false => simpa using hm
      | true =>
        rcases hw with hw | hw
        · exact absurd hw (by simp)
        · have : m ∈ mapping.filter
              (fun r => clean_value r.wholesaler == FIXED_WHOLESALER) :=
            List.mem_filter.mpr ⟨hm, by simp [hw]⟩
          simpa using this
    refine List.mem_filter.mpr ⟨List.mem_map.mpr ⟨m, hmf, ?_⟩, ?_⟩
    · rw [h1, h2]
    · have h3' : q.1.isEmpty = false := by
        cases hq : q.1 with
        | nil => exact absurd hq h3
        | cons a t => rfl
      have h4' : q.2.isEmpty = false := by
        cases hq : q.2 with
        | nil => exact absurd hq h4
        | cons a t => rfl
      simp [h3', h4']

theorem qualRows_nil (hasCol : Bool) : qualRows hasCol [] = [] := by
  cases hasCol <;> rfl

theorem mem_groupedTable {p : Str × Str} {rows : List (Str × Str)} :
    p ∈ groupedTable rows ↔
      p.1 ∈ rows.map (·.1) ∧ p.2 = joinedIds rows p.1 := by
  unfold groupedTable
  constructor
  · intro h
    rcases List.mem_map.mp h with ⟨u, hu, he⟩
    have h1 : p.1 = u := by rw [← he]
    have h2 : p.2 = joinedIds rows u := by rw [← he]
    exact ⟨h1 ▸ mem_sortDedup.mp hu, h1 ▸ h2⟩
  · rintro ⟨h1, h2⟩
    refine List.mem_map.mpr ⟨p.1, mem_sortDedup.mpr h1, ?_⟩
    rw [← h2]

theorem mem_idList {rows : List (Str × Str)} {u e : Str} :
    e ∈ sortDedup ((rows.filter (fun q => q.1 = u)).map (·.2)) ↔
      ∃ q ∈ rows, q.1 = u ∧ q.2 = e := by
  rw [mem_sortDedup]
  constructor
  · intro h
    rcases List.mem_map.mp h with ⟨q, hq, he⟩
    exact ⟨q, List.mem_of_mem_filter hq,
      by simpa using List.of_mem_filter hq, he⟩
  · rintro ⟨q, hq, h1, h2⟩
    exact List.mem_map.mpr ⟨q, List.mem_filter.mpr ⟨hq, by simpa using h1⟩, h2⟩

/-- C1: the reflection step preserves the registry row count for every
registry and mapping table; a registry row whose uid has no qualifying
mapping row receives `externalIds = ""`; with an empty mapping table
every row receives `""`. -/
theorem C1_reflect_preserves_registry :
    ∀ (hasCol : Bool) (master : List MasterRow8) (mapping : List MapRow8),
      (step8_reflect hasCol master mapping).length = master.length ∧
      (∀ pr ∈ step8_reflect hasCol master mapping,
        (∀ q ∈ qualRows hasCol mapping, q.1 ≠ pr.1.uid) → pr.2 = []) ∧
      (mapping = [] →
        ∀ pr ∈ step8_reflect hasCol master mapping, pr.2 = []) := by
  intro hasCol master mapping
  refine ⟨leftJoinFill_length _ _ (groupedTable_key_len _), ?_, ?_⟩
  · intro pr hpr hq
    rcases mem_leftJoinFill hpr with ⟨-, hc | hc⟩
    · exact hc.2
    · exfalso
      rcases mem_groupedTable.mp hc with ⟨hk, -⟩
      rcases List.mem_map.mp hk with ⟨q, hqq, hqe⟩
      exact hq q hqq hqe
  · intro hnil pr hpr
    subst hnil
    rcases mem_leftJoinFill hpr with ⟨-, hc | hc⟩
    · exact hc.2
    · exfalso
      rcases mem_groupedTable.mp hc with ⟨hk, -⟩
      rw [qualRows_nil] at hk
      simp at hk

/-- Witness for C1 at a concrete registry and the empty mapping table. -/
theorem C1_reflect_preserves_registry_witness :
    (step8_reflect false [⟨codes "U1"⟩] []).length = 1 ∧
      ∀ pr ∈ step8_reflect false [⟨codes "U1"⟩] [], pr.2 = [] := by
  have h := C1_reflect_preserves_registry false [⟨codes "U1"⟩] []
  exact ⟨h.1, h.2.2 rfl⟩

/-- C10: each reflected `externalIds` value is the comma-space join of a
list of ids each traceable to a mapping row passing the wholesaler filter
(when the wholesaler column exists, only rows naming the configured
wholesaler count; without the column every row counts), and every
qualifying row's id for that uid is listed. -/
theorem C10_wholesaler_filter :
    ∀ (hasCol : Bool) (master : List MasterRow8) (mapping : List MapRow8),
      ∀ pr ∈ step8_reflect hasCol master mapping,
        ∃ ids : List Str,
          pr.2 = List.intercalate [0x2C, 0x20] ids ∧
          (∀ e ∈ ids, ∃ m ∈ mapping,
            (hasCol = false ∨ clean_value m.wholesaler = FIXED_WHOLESALER) ∧
            clean_value m.uid = pr.1.uid ∧ clean_id m.extId = e ∧ e ≠ []) ∧
          (∀ m ∈ mapping,
            (hasCol = false ∨ clean_value m.wholesaler = FIXED_WHOLESALER) →
            clean_value m.uid = pr.1.uid → clean_value m.uid ≠ [] →
            clean_id m.extId ≠ [] → clean_id m.extId ∈ ids) := by
  intro hasCol master mapping pr hpr
  rcases mem_leftJoinFill hpr with ⟨-, hc | hc⟩
  · refine ⟨[], by simpa using hc.2, by simp, ?_⟩
    intro m hm hw h1 h2 h3
    exfalso
    have hq : (clean_value m.uid, clean_id m.extId) ∈
        qualRows hasCol mapping :=
      mem_qualRows.mpr ⟨m, hm, hw, rfl, rfl, h2, h3⟩
    have hk : pr.1.uid ∈ (qualRows hasCol mapping).map (·.1) :=
      List.mem_map.mpr ⟨_, hq, h1⟩
    have hg : (pr.1.uid, joinedIds (qualRows hasCol mapping) pr.1.uid) ∈
        groupedTable (qualRows hasCol mapping) :=
      mem_groupedTable.mpr ⟨hk, rfl⟩
    have : (pr.1.uid, joinedIds (qualRows hasCol mapping) pr.1.uid) ∈
        (groupedTable (qualRows hasCol mapping)).filter
          (fun p => p.1 = pr.1.uid) :=
      List.mem_filter.mpr ⟨hg, by simp⟩
    rw [hc.1] at this
    simp at this
  · rcases mem_groupedTable.mp hc with ⟨-, hj⟩
    have hj' : pr.2 = joinedIds (qualRows hasCol mapping) pr.1.uid := hj
    refine ⟨sortDedup (((qualRows hasCol mapping).filter
      (fun q => q.1 = pr.1.uid)).map (·.2)), by simpa [joinedIds] using hj', ?_, ?_⟩
    · intro e he
      rcases mem_idList.mp he with ⟨q, hq, h1, h2⟩
      rcases mem_qualRows.mp hq with ⟨m, hm, hw, hu, hi, -, hne⟩
      exact ⟨m, hm, hw, h1 ▸ hu, h2 ▸ hi, h2 ▸ hne⟩
    · intro m hm hw h1 h2 h3
      refine mem_idList.mpr ⟨(clean_value m.uid, clean_id m.extId),
        mem_qualRows.mpr ⟨m, hm, hw, rfl, rfl, h2, h3⟩, h1, rfl⟩

/-- Witness for C10 at a one-row registry and one matching mapping row. -/
theorem C10_wholesaler_filter_witness :
    ∃ ids : List Str,
      ((step8_reflect true [⟨codes "U1"⟩]
        [⟨.str (codes "U1"), .str (codes "77"),
          .str (codes "アスコ")⟩]).getD 0 (⟨[]⟩, [])).2 =
        List.intercalate [0x2C, 0x20] ids := by
  have h := C10_wholesaler_filter true [⟨codes "U1"⟩]
    [⟨.str (codes "U1"), .str (codes "77"), .str (codes "アスコ")⟩]
    ((step8_reflect true [⟨codes "U1"⟩]
      [⟨.str (codes "U1"), .str (codes "77"),
        .str (codes "アスコ")⟩]).getD 0 (⟨[]⟩, []))
    (by decide)
  exact ⟨h.choose, h.choose_spec.1⟩

/-! ### Lemmas about the mapping merge -/

theorem ddkf_filter (k : Str × Str) :
    ∀ (l : List MRow) (seen : List (Str × Str)),
      (dedupKeepFirstBy seen l).filter (fun r => mrowKey r = k) =
        if seen.contains k then []
        else (l.filter (fun r => mrowKey r = k)).take 1 := by
  intro l
  induction l with
  | nil => intro seen; cases h : seen.contains k <;> simp [dedupKeepFirstBy, h]
  | cons r rest ih =>
    intro seen
    unfold dedupKeepFirstBy
    by_cases hk : mrowKey r = k
    · subst hk
      by_cases hc : mrowKey r ∈ seen
      · simp [hc, ih, List.filter_cons]
      · simp [hc, ih, List.filter_cons, List.contains_cons]
    · have hk' : ¬k = mrowKey r := fun h => hk h.symm
      by_cases hc : mrowKey r ∈ seen
      · simp [hc, ih, List.filter_cons, hk]
      · simp [hc, ih, List.filter_cons, List.contains_cons, hk, hk']

theorem dedupKeepLast_filter (l : List MRow) (k : Str × Str) :
    (dedupKeepLast l).filter (fun r => mrowKey r = k) =
      ((l.filter (fun r => mrowKey r = k)).getLast?).toList := by
  unfold dedupKeepLast
  rw [List.filter_reverse, ddkf_filter]
  simp only [List.contains_nil, Bool.false_eq_true, if_false]
  rw [List.filter_reverse, List.take_one, List.head?_reverse]
  cases h : (l.filter (fun r => mrowKey r = k)).getLast? <;> simp

theorem ddkf_subset :
    ∀ (l : List MRow) (seen : List (Str × Str)) (r : MRow),
      r ∈ dedupKeepFirstBy seen l → r ∈ l := by
  intro l
  induction l with
  | nil => intro seen r h; simp [dedupKeepFirstBy] at h
  | cons q rest ih =>
    intro seen r h
    unfold dedupKeepFirstBy at h
    by_cases hc : mrowKey q ∈ seen
    · rw [if_pos (by simpa using hc)] at h
      exact List.mem_cons_of_mem _ (ih _ _ h)
    · rw [if_neg (by simpa using hc)] at h
      rcases List.mem_cons.mp h with hq | h2
      · rw [hq]
        exact List.mem_cons_self _ _
      · exact List.mem_cons_of_mem _ (ih _ _ h2)

theorem dedupKeepLast_subset (l : List MRow) (r : MRow)
    (h : r ∈ dedupKeepLast l) : r ∈ l := by
  unfold dedupKeepLast at h
  rw [List.mem_reverse] at h
  have := ddkf_subset l.reverse [] r h
  simpa using this

theorem ddkf_of_nodup :
    ∀ (l : List MRow) (seen : List (Str × Str)),
      (l.map mrowKey).Nodup → (∀ r ∈ l, mrowKey r ∉ seen) →
      dedupKeepFirstBy seen l = l := by
  intro l
  induction l with
  | nil => intro seen _ _; rfl
  | cons q rest ih =>
    intro seen hnd hseen
    have hnd2 : (∀ x ∈ rest, ¬mrowKey x = mrowKey q) ∧
        (rest.map mrowKey).Nodup := by simpa using hnd
    unfold dedupKeepFirstBy
    rw [if_neg (by simpa using hseen q (by simp))]
    rw [ih (mrowKey q :: seen) hnd2.2 ?_]
    intro r hr
    simp only [List.mem_cons]
    rintro (heq | hmem)
    · exact hnd2.1 r hr heq
    · exact hseen r (by simp [hr]) hmem

theorem dedupKeepLast_of_nodup (l : List MRow)
    (h : (l.map mrowKey).Nodup) : dedupKeepLast l = l := by
  have h2 : (l.reverse.map mrowKey).Nodup := by
    rw [List.map_reverse]
    exact List.nodup_reverse.mpr h
  unfold dedupKeepLast
  rw [ddkf_of_nodup l.reverse [] h2 (by simp), List.reverse_reverse]

theorem stdRow_tableOf (r : MRow)
    (hu : clean_value (.str r.uid) = r.uid) (hun : r.uid ≠ [])
    (hn : clean_value (.str r.name) = r.name)
    (hw : clean_value (.str r.wholesaler) = r.wholesaler)
    (hwn : r.wholesaler ≠ [])
    (he : clean_value (.str r.extId) = r.extId)
    (hs : clean_value (.str r.startDate) = r.startDate) :
    stdRow (codes "自社UID") (some (codes "卸側施設ID"))
      (some (codes "施設名(確認用)")) FINAL_COLUMNS
      [.str r.uid, .str r.name, .str r.wholesaler, .str r.extId,
       .str r.startDate] = some r := by
  have h0 : getCell FINAL_COLUMNS [PyVal.str r.uid, .str r.name,
      .str r.wholesaler, .str r.extId, .str r.startDate]
      (codes "自社UID") = .str r.uid := rfl
  have h1 : getCell FINAL_COLUMNS [PyVal.str r.uid, .str r.name,
      .str r.wholesaler, .str r.extId, .str r.startDate]
      (codes "施設名(確認用)") = .str r.name := rfl
  have h2 : getCellD FINAL_COLUMNS [PyVal.str r.uid, .str r.name,
      .str r.wholesaler, .str r.extId, .str r.startDate]
      (codes "卸業者名") (.str FIXED_WHOLESALER) = .str r.wholesaler := rfl
  have h3 : getCell FINAL_COLUMNS [PyVal.str r.uid, .str r.name,
      .str r.wholesaler, .str r.extId, .str r.startDate]
      (codes "卸側施設ID") = .str r.extId := rfl
  have h4 : getCellD FINAL_COLUMNS [PyVal.str r.uid, .str r.name,
      .str r.wholesaler, .str r.extId, .str r.startDate]
      (codes "適用開始日") (.str []) = .str r.startDate := rfl
  simp only [stdRow, h0, h1, h2, h3, h4, hu, hn, hw, he, hs]
  rw [if_neg hun, if_neg hwn]

theorem std_tableOf :
    ∀ (M : List MRow),
      (∀ r ∈ M, clean_value (.str r.uid) = r.uid ∧ r.uid ≠ [] ∧
        clean_value (.str r.name) = r.name ∧
        clean_value (.str r.wholesaler) = r.wholesaler ∧
        r.wholesaler ≠ [] ∧
        clean_value (.str r.extId) = r.extId ∧ r.extId ≠ [] ∧
        clean_value (.str r.startDate) = r.startDate) →
      standardize_columns (tableOfMRows M) = M := by
  have hgen : ∀ (Ms : List MRow),
      (∀ r ∈ Ms, clean_value (.str r.uid) = r.uid ∧ r.uid ≠ [] ∧
        clean_value (.str r.name) = r.name ∧
        clean_value (.str r.wholesaler) = r.wholesaler ∧
        r.wholesaler ≠ [] ∧
        clean_value (.str r.extId) = r.extId ∧ r.extId ≠ [] ∧
        clean_value (.str r.startDate) = r.startDate) →
      (Ms.map (fun r => [PyVal.str r.uid, .str r.name, .str r.wholesaler,
        .str r.extId, .str r.startDate])).filterMap
        (stdRow (codes "自社UID") (some (codes "卸側施設ID"))
          (some (codes "施設名(確認用)")) FINAL_COLUMNS) = Ms := by
    intro Ms
    induction Ms with
    | nil => intro _; rfl
    | cons r rest ih =>
      intro hMs
      obtain ⟨hu, hun, hn, hw, hwn, he, _, hs⟩ := hMs r (by simp)
      rw [List.map_cons, List.filterMap_cons,
        stdRow_tableOf r hu hun hn hw hwn he hs]
      rw [ih fun q hq => hMs q (by simp [hq])]
  intro M hM
  cases M with
  | nil => rfl
  | cons m0 mr =>
    have hred : standardize_columns (tableOfMRows (m0 :: mr)) =
        ((m0 :: mr).map (fun r => [PyVal.str r.uid, .str r.name,
          .str r.wholesaler, .str r.extId, .str r.startDate])).filterMap
          (stdRow (codes "自社UID") (some (codes "卸側施設ID"))
            (some (codes "施設名(確認用)")) FINAL_COLUMNS) := rfl
    rw [hred, hgen (m0 :: mr) hM]

theorem map_cleanExt_id :
    ∀ (l : List MRow), (∀ r ∈ l, clean_value (.str r.extId) = r.extId) →
      l.map (fun r => { r with extId := clean_value (.str r.extId) }) = l := by
  intro l
  induction l with
  | nil => intro _; rfl
  | cons r rest ih =>
    intro h
    rw [List.map_cons, ih fun q hq => h q (by simp [hq]), h r (by simp)]

/-- The claimed universal idempotence is false: re-feeding a merged
table as the automatic input re-standardizes it, which drops rows whose
stored uid cleans to empty (here an inherited existing row with uid
`NaN` and external id `77` survives the first merge but not the
second). -/
theorem C4_counterexample :
    mergeFinal []
      (tableOfMRows (mergeFinal
        [⟨codes "NaN", [], [], codes "77", []⟩]
        ⟨[codes "自社UID", codes "卸側施設ID"],
          [[.str (codes "U1"), .str (codes "88")]]⟩
        ⟨[], []⟩))
      ⟨[], []⟩ ≠
    mergeFinal [⟨codes "NaN", [], [], codes "77", []⟩]
      ⟨[codes "自社UID", codes "卸側施設ID"],
        [[.str (codes "U1"), .str (codes "88")]]⟩
      ⟨[], []⟩ := by decide

/-- C4 (amended): the merge deduplicates the three-way union
existing ++ standardized-auto ++ manual on `(uid, externalId)` keeping
the last occurrence of each key; every merge output row has a non-empty
external id and is a cleaned copy of a union row; and re-merging a
stored table (fed back as the automatic input, with the manual and
existing inputs empty) is a no-op exactly on standardization-stable
tables: distinct keys, every uid cleaning to itself and non-empty,
name/wholesaler/external-id/date cleaning to themselves, wholesaler and
external id non-empty.  Without those conditions re-standardization
drops or rewrites rows, so the claim's unconditional idempotence fails
(see the counterexample). -/
theorem C4_merge_dedup_idempotent :
    (∀ (C : List MRow) (A B : Table) (k : Str × Str),
      (dedupKeepLast (C ++ (standardize_columns A ++ manualClean B))).filter
          (fun r => mrowKey r = k) =
        (((C ++ (standardize_columns A ++ manualClean B)).filter
          (fun r => mrowKey r = k)).getLast?).toList) ∧
    (∀ (C : List MRow) (A B : Table),
      (standardize_columns A ++ manualClean B) ≠ [] →
      ∀ r ∈ mergeFinal C A B,
        r.extId ≠ [] ∧
        ∃ r0 ∈ C ++ (standardize_columns A ++ manualClean B),
          r = { r0 with extId := clean_value (.str r0.extId) }) ∧
    (∀ M : List MRow, (M.map mrowKey).Nodup →
      (∀ r ∈ M, clean_value (.str r.uid) = r.uid ∧ r.uid ≠ [] ∧
        clean_value (.str r.name) = r.name ∧
        clean_value (.str r.wholesaler) = r.wholesaler ∧
        r.wholesaler ≠ [] ∧
        clean_value (.str r.extId) = r.extId ∧ r.extId ≠ [] ∧
        clean_value (.str r.startDate) = r.startDate) →
      mergeFinal [] (tableOfMRows M) ⟨[], []⟩ = M) := by
  refine ⟨fun C A B k =>
    dedupKeepLast_filter (C ++ (standardize_columns A ++ manualClean B)) k,
    ?_, ?_⟩
  · intro C A B hne r hr
    unfold mergeFinal at hr
    rw [if_neg (by simpa [List.isEmpty_iff] using hne)] at hr
    have hp := List.of_mem_filter hr
    have hm := List.mem_of_mem_filter hr
    rcases List.mem_map.mp hm with ⟨r0, hr0, hr0e⟩
    refine ⟨by simpa [List.isEmpty_iff] using hp,
      r0, dedupKeepLast_subset _ _ hr0, hr0e.symm⟩
  · intro M hnd hM
    cases M with
    | nil => rfl
    | cons m0 mr =>
      have hstd := std_tableOf (m0 :: mr) hM
      simp only [mergeFinal]
      rw [hstd, show manualClean ⟨[], []⟩ = [] from rfl, List.append_nil]
      rw [if_neg (by simp)]
      rw [List.nil_append, dedupKeepLast_of_nodup _ hnd]
      rw [map_cleanExt_id (m0 :: mr) fun r hr => (hM r hr).2.2.2.2.2.1]
      refine List.filter_eq_self.mpr fun r hr => ?_
      have := (hM r hr).2.2.2.2.2.2.1
      simpa [List.isEmpty_iff] using this

/-- Witness for C4: a standardization-stable one-row table re-merges to
itself, and a concrete merge output row keeps its non-empty external
id. -/
theorem C4_merge_dedup_idempotent_witness :
    mergeFinal []
      (tableOfMRows [⟨codes "U1", codes "病院", codes "アスコ",
        codes "88", codes "2025/01/01"⟩]) ⟨[], []⟩ =
      [⟨codes "U1", codes "病院", codes "アスコ",
        codes "88", codes "2025/01/01"⟩] :=
  C4_merge_dedup_idempotent.2.2
    [⟨codes "U1", codes "病院", codes "アスコ", codes "88",
      codes "2025/01/01"⟩] (by decide) (by decide)

/-! ### Lemmas about UID column resolution -/

theorem find?_first {α : Type} {p : α → Bool} :
    ∀ {l : List α} {c : α}, l.find? p = some c →
      p c = true ∧ ∃ pre post, l = pre ++ c :: post ∧
        ∀ d ∈ pre, p d = false := by
  intro l
  induction l with
  | nil => intro c h; simp [List.find?] at h
  | cons a t ih =>
    intro c h
    rw [List.find?] at h
    cases ha : p a with
    | true =>
      rw [ha] at h
      injection h with h
      subst h
      exact ⟨ha, [], t, rfl, by simp⟩
    | false =>
      rw [ha] at h
      rcases ih h with ⟨hc, pre, post, he, hpre⟩
      refine ⟨hc, a :: pre, post, by rw [he]; rfl, ?_⟩
      intro d hd
      rcases List.mem_cons.mp hd with hd | hd
      · exact hd ▸ ha
      · exact hpre d hd

/-- C9 (amended): the UID column scan is a single left-to-right pass in
which each column is tested against the exact aliases and the `UID`
marker together, so the first column passing either test wins; a
manually resolved row is admitted only if its (cleaned) UID cell is a
non-empty string. -/
theorem C9_uid_column_resolution :
    (∀ (cols : List Str) (c : Str), find_uid_column cols = some c →
      uidColPred c = true ∧ ∃ pre post, cols = pre ++ c :: post ∧
        ∀ d ∈ pre, uidColPred d = false) ∧
    (∀ (t : Table) (row : List PyVal), row ∈ admittedManualRows t →
      ∃ uc, find_uid_column t.cols = some uc ∧
        getCell t.cols row uc ≠ PyVal.str []) := by
  constructor
  · intro cols c h
    exact find?_first h
  · intro t row hrow
    unfold admittedManualRows at hrow
    cases hf : find_uid_column t.cols with
    | none => rw [hf] at hrow; simp at hrow
    | some uc =>
      rw [hf] at hrow
      exact ⟨uc, rfl, by simpa using List.of_mem_filter hrow⟩

/-- Counterexample to C9 as stated: in a table whose first column merely
contains the `UID` marker and whose second column exactly equals the
known alias `自社UID`, the scan selects the first column, not the exact
alias. -/
theorem C9_counterexample :
    find_uid_column [codes "得意先UID", codes "自社UID"] =
        some (codes "得意先UID") ∧
      uidPatterns.contains (codes "自社UID") = true ∧
      uidPatterns.contains (codes "得意先UID") = false ∧
      containsSub (codes "UID") (pyUpper (pyStrip (codes "得意先UID"))) = true ∧
      find_uid_column [codes "得意先UID", codes "自社UID"] ≠
        some (codes "自社UID") := by
  refine ⟨by decide, by decide, by decide, by decide, by decide⟩

/-- Witness for C9 applying the scan characterization at a concrete
table. -/
theorem C9_uid_column_resolution_witness :
    uidColPred (codes "自社UID") = true ∧
      ∃ pre post, [codes "得意先コード", codes "自社UID"] =
        pre ++ (codes "自社UID") :: post := by
  have h := C9_uid_column_resolution.1
    [codes "得意先コード", codes "自社UID"] (codes "自社UID") (by decide)
  exact ⟨h.1, h.2.choose, h.2.choose_spec.choose, h.2.choose_spec.choose_spec.1⟩

/-! ### Lemmas about the match engine -/

/-- C2: the address+name strategy is tried first; the phone strategy
only runs when it found nothing and the digits-only phone key has at
least 9 digits; a success emits one mapping row tagged with the
strategy; a failure emits one unmatched row carrying the identifying
fields and the computed address+name key; every record lands in exactly
one of the two outputs. -/
theorem C2_match_engine :
    (∀ (hasTel : Bool) (master : List MasterRec6) (r : ExtRec) (row : MapOut),
      step6_match hasTel master r = .inl row →
        (row.method = codes "住所+名前" ∧
          master.filter (fun m => matchKeyAddr m == extBillKey r) ≠ []) ∨
        (row.method = codes "電話番号" ∧
          master.filter (fun m => matchKeyAddr m == extBillKey r) = [] ∧
          extBillTel r ≠ [] ∧ 9 ≤ (extBillTel r).length ∧
          master.filter (fun m => matchKeyTel hasTel m == extBillTel r) ≠ [])) ∧
    (∀ (hasTel : Bool) (master : List MasterRec6) (r : ExtRec) (u : UnmOut),
      step6_match hasTel master r = .inr u →
        master.filter (fun m => matchKeyAddr m == extBillKey r) = [] ∧
        (extBillTel r ≠ [] ∧ 9 ≤ (extBillTel r).length →
          master.filter (fun m => matchKeyTel hasTel m == extBillTel r) = []) ∧
        u.key = extBillKey r ∧ u.code = r.code ∧ u.name = r.name) ∧
    (∀ (hasTel : Bool) (master : List MasterRec6) (recs : List ExtRec),
      (step6_run hasTel master recs).1.length +
        (step6_run hasTel master recs).2.length = recs.length) := by
  refine ⟨?_, ?_, ?_⟩
  · intro hasTel master r row h
    unfold step6_match at h
    cases h1 : master.filter (fun m => matchKeyAddr m == extBillKey r) with
    | cons mr rest =>
      rw [h1] at h
      injection h with h
      subst h
      exact Or.inl ⟨rfl, by simp⟩
    | nil =>
      rw [h1] at h
      by_cases hc : extBillTel r ≠ [] ∧ 9 ≤ (extBillTel r).length
      · rw [if_pos hc] at h
        cases h2 : master.filter (fun m => matchKeyTel hasTel m == extBillTel r) with
        | cons mr rest =>
          rw [h2] at h
          injection h with h
          subst h
          exact Or.inr ⟨rfl, rfl, hc.1, hc.2, by simp⟩
        | nil => rw [h2] at h; exact absurd h (by simp)
      · rw [if_neg hc] at h
        exact absurd h (by simp)
  · intro hasTel master r u h
    unfold step6_match at h
    cases h1 : master.filter (fun m => matchKeyAddr m == extBillKey r) with
    | cons mr rest => rw [h1] at h; exact absurd h (by simp)
    | nil =>
      rw [h1] at h
      by_cases hc : extBillTel r ≠ [] ∧ 9 ≤ (extBillTel r).length
      · rw [if_pos hc] at h
        cases h2 : master.filter (fun m => matchKeyTel hasTel m == extBillTel r) with
        | cons mr rest => rw [h2] at h; exact absurd h (by simp)
        | nil =>
          rw [h2] at h
          injection h with h
          subst h
          exact ⟨rfl, fun _ => rfl, rfl, rfl, rfl⟩
      · rw [if_neg hc] at h
        injection h with h
        subst h
        exact ⟨rfl, fun hcc => absurd hcc hc, rfl, rfl, rfl⟩
  · intro hasTel master recs
    induction recs with
    | nil => rfl
    | cons r rest ih =>
      simp only [step6_run, List.filterMap_cons] at ih ⊢
      cases h : step6_match hasTel master r with
      | inl row =>
        simp only [Sum.getLeft?, Sum.getRight?, List.length_cons] at ih ⊢
        omega
      | inr u =>
        simp only [Sum.getLeft?, Sum.getRight?, List.length_cons] at ih ⊢
        omega

/-- Witness for C2: a record that misses on address+name but matches by
phone on a one-row master. -/
theorem C2_match_engine_witness :
    step6_match true
      [⟨.str (codes "U1"), .str (codes "ねこ病院"), .str (codes "東京都北区1-1"),
        .str (codes "03-1234-5678"), .nan⟩]
      ⟨.str (codes "900"), .str (codes "べつの名前"), none, none, none,
        some (.str (codes "0312345678")), none⟩ =
      .inl ⟨.str (codes "U1"), .str (codes "ねこ病院"), FIXED_WHOLESALER,
        .str (codes "900"), .str (codes "べつの名前"), .nan, codes "電話番号"⟩ ∧
    9 ≤ (extBillTel ⟨.str (codes "900"), .str (codes "べつの名前"), none, none,
      none, some (.str (codes "0312345678")), none⟩).length := by
  have h := C2_match_engine.1 true
    [⟨.str (codes "U1"), .str (codes "ねこ病院"), .str (codes "東京都北区1-1"),
      .str (codes "03-1234-5678"), .nan⟩]
    ⟨.str (codes "900"), .str (codes "べつの名前"), none, none, none,
      some (.str (codes "0312345678")), none⟩
    ⟨.str (codes "U1"), .str (codes "ねこ病院"), FIXED_WHOLESALER,
      .str (codes "900"), .str (codes "べつの名前"), .nan, codes "電話番号"⟩
    (by decide)
  rcases h with ⟨hm, -⟩ | ⟨-, -, -, hlen, -⟩
  · exact absurd hm (by decide)
  · exact ⟨by decide, hlen⟩

/-! ### Lemmas about the registry build -/

theorem buildGo_eq (rows : List InRow) :
    ∀ (seen : List Str) (seq : Nat),
      buildGo seen seq rows =
        ((keptRows_spec seen rows).enumFrom seq).map
          (fun p => masterOf (p.1 + 1) p.2) := by
  induction rows with
  | nil => intro seen seq; rfl
  | cons r rest ih =>
    intro seen seq
    by_cases h1 : r.addr = PyVal.nan ∨ r.tel = PyVal.nan
    · have h1' : ¬(r.addr ≠ PyVal.nan ∧ r.tel ≠ PyVal.nan ∧
          ¬ seen.contains (dedupKeyR r)) := by
        rcases h1 with h | h <;> simp [h]
      rw [buildGo, if_pos h1, keptRows_spec, if_neg h1', ih]
    · push_neg at h1
      by_cases h2 : seen.contains (dedupKeyR r) = true
      · have h2' : ¬(r.addr ≠ PyVal.nan ∧ r.tel ≠ PyVal.nan ∧
            ¬ seen.contains (dedupKeyR r)) := fun hcon => hcon.2.2 h2
        rw [buildGo, if_neg (not_or.mpr ⟨h1.1, h1.2⟩), if_pos h2,
          keptRows_spec, if_neg h2', ih]
      · rw [buildGo, if_neg (not_or.mpr ⟨h1.1, h1.2⟩), if_neg h2,
          keptRows_spec, if_pos ⟨h1.1, h1.2, h2⟩, ih]
        rfl

/-- C3: the registry build keeps exactly the rows with both contacts
present and an unseen dedup key (first occurrence wins), issues uids
`issue(1), issue(2), …` in input order over the kept rows, and sets
`activeFlag` iff the price-effective date parses non-empty. -/
theorem C3_registry_build :
    (∀ rows : List InRow,
      rebuild_master rows =
        (keptRows_spec [] rows).enum.map (fun p => masterOf (p.1 + 1) p.2)) ∧
    (∀ (rows : List InRow) (i : Nat) (h : i < (rebuild_master rows).length),
      ((rebuild_master rows).get ⟨i, h⟩).uid = generate_id (i + 1)) ∧
    (∀ (rows : List InRow), ∀ m ∈ rebuild_master rows,
      (m.activeFlag = 1 ↔ m.priceDate ≠ [])) := by
  have hmain : ∀ rows : List InRow,
      rebuild_master rows =
        (keptRows_spec [] rows).enum.map (fun p => masterOf (p.1 + 1) p.2) := by
    intro rows
    rw [rebuild_master, buildGo_eq]
    rfl
  refine ⟨hmain, ?_, ?_⟩
  · intro rows i h
    revert h
    rw [hmain rows]
    intro h
    rw [List.get_eq_getElem]
    simp [masterOf]
  · intro rows m hm
    rw [hmain rows] at hm
    rcases List.mem_map.mp hm with ⟨p, -, he⟩
    subst he
    unfold masterOf
    by_cases h : parse_date p.2.priceDate = [] <;> simp [h]

/-- Witness for C3: a two-row batch whose second row duplicates the
first row's dedup key gets one master row with uid `issue(1)`. -/
theorem C3_registry_build_witness :
    ((rebuild_master
      [⟨.nan, .nan, .nan, .nan, .str (codes "東京都1-1"),
        .str (codes "0311112222"), .nan, .nan, .nan, .str (codes "2024/04/01"),
        .nan⟩,
       ⟨.nan, .nan, .nan, .nan, .str (codes "東京都１－１"),
        .str (codes "03-1111-2222"), .nan, .nan, .nan, .nan, .nan⟩]).get
      ⟨0, by decide⟩).uid = generate_id 1 := by
  exact C3_registry_build.2.1
    [⟨.nan, .nan, .nan, .nan, .str (codes "東京都1-1"),
      .str (codes "0311112222"), .nan, .nan, .nan, .str (codes "2024/04/01"),
      .nan⟩,
     ⟨.nan, .nan, .nan, .nan, .str (codes "東京都１－１"),
      .str (codes "03-1111-2222"), .nan, .nan, .nan, .nan, .nan⟩]
    0 (by decide)

/-! ### Lemmas about digit rendering and date formatting -/

theorem hashGo_pos (A : Str) (hA : 2 ≤ A.length) :
    ∀ (fuel v : Nat) (acc : Str), 1 ≤ v → v < fuel →
      hashGo A fuel v acc =
        ((Nat.digits A.length v).map (fun k => A.getD k 0)).reverse ++ acc := by
  intro fuel
  induction fuel with
  | zero => intro v acc h1 h2; omega
  | succ f ih =>
    intro v acc h1 h2
    have hL : 1 < A.length := hA
    simp only [hashGo]
    by_cases hv : v / A.length = 0
    · rw [if_pos hv, Nat.digits_def' hL h1, hv]
      simp
    · rw [if_neg hv,
        ih (v / A.length) _ (Nat.one_le_iff_ne_zero.mpr hv)
          (by have := Nat.div_lt_self h1 hL; omega),
        Nat.digits_def' hL h1]
      simp

theorem hashNum_pos (A : Str) (hA : 2 ≤ A.length) (v : Nat) (hv : 1 ≤ v) :
    hashNum v A = ((Nat.digits A.length v).map (fun k => A.getD k 0)).reverse := by
  rw [hashNum, hashGo_pos A hA (v + 1) v [] hv (by omega)]
  simp

theorem digits_length_le {b n k : Nat} (hb : 1 < b) (h : n < b ^ k) :
    (Nat.digits b n).length ≤ k := by
  rcases Nat.eq_zero_or_pos n with h0 | h0
  · subst h0; simp
  · rw [Nat.digits_len b n hb h0.ne']
    have := (Nat.lt_pow_iff_log_lt hb h0.ne').mp h
    omega

theorem natStr_len_le {n k : Nat} (h : n < 10 ^ k) (hk : 1 ≤ k) :
    (natStr n).length ≤ k := by
  rcases Nat.eq_zero_or_pos n with h0 | h0
  · subst h0
    simpa [natStr, hashNum, hashGo] using hk
  · rw [natStr, hashNum_pos DIGITS (by decide) n h0]
    have hd : (Nat.digits DIGITS.length n).length ≤ k := by
      have h10 : DIGITS.length = 10 := by decide
      rw [h10]
      exact digits_length_le (by omega) h
    simpa using hd

theorem natStr_digits (n : Nat) : ∀ c ∈ natStr n, isAsciiDigit c = true := by
  rcases Nat.eq_zero_or_pos n with h0 | h0
  · subst h0
    intro c hc
    simp [natStr, hashNum, hashGo] at hc
    subst hc
    decide
  · rw [natStr, hashNum_pos DIGITS (by decide) n h0]
    intro c hc
    simp only [List.mem_reverse, List.mem_map] at hc
    rcases hc with ⟨k, hk, he⟩
    have hk10 : k < 10 := by
      have h10 : (1 : Nat) < DIGITS.length := by decide
      have := Nat.digits_lt_base h10 hk
      simpa using this
    subst he
    have hall : ∀ k < 10, isAsciiDigit (DIGITS.getD k 0) = true := by decide
    exact hall k hk10

theorem zfill_length {w : Nat} {s : Str} (h : s.length ≤ w) :
    (zfill w s).length = w := by
  simp [zfill]
  omega

theorem zfill_digits {w : Nat} {s : Str}
    (h : ∀ c ∈ s, isAsciiDigit c = true) :
    ∀ c ∈ zfill w s, isAsciiDigit c = true := by
  intro c hc
  rw [zfill, List.mem_append] at hc
  rcases hc with hrep | hs
  · rw [List.eq_of_mem_replicate hrep]
    decide
  · exact h c hs

theorem formatDate_form {y m d : Nat} (hy : y ≤ 9999) (hm : m ≤ 99)
    (hd : d ≤ 99) : isYMDForm (formatDate y m d) := by
  have h4 : (10 : Nat) ^ 4 = 10000 := by norm_num
  have h2 : (10 : Nat) ^ 2 = 100 := by norm_num
  refine ⟨zfill 4 (natStr y), pad2 m, pad2 d, rfl,
    zfill_length (natStr_len_le (by omega) (by omega)),
    zfill_length (natStr_len_le (by omega) (by omega)),
    zfill_length (natStr_len_le (by omega) (by omega)),
    zfill_digits (natStr_digits y),
    zfill_digits (natStr_digits m),
    zfill_digits (natStr_digits d)⟩

theorem civil_serial_bounds (n : Int) (h1 : 1 ≤ n) (h2 : n ≤ 73050) :
    1 ≤ (civilFromDays (n - 25569)).1 ∧ (civilFromDays (n - 25569)).1 ≤ 9999 ∧
    (civilFromDays (n - 25569)).2.1 ≤ 99 ∧
    (civilFromDays (n - 25569)).2.2 ≤ 99 := by
  unfold civilFromDays
  dsimp only
  split_ifs <;> omega

theorem formatSerial_form (n : Int) (h1 : 1 ≤ n) (h2 : n ≤ 73050) :
    isYMDForm (formatSerial n) := by
  have hb := civil_serial_bounds n h1 h2
  rw [formatSerial]
  exact formatDate_form (by omega) hb.2.2.1 hb.2.2.2

theorem daysInMonth_le (y m : Nat) : daysInMonth y m ≤ 31 := by
  unfold daysInMonth
  split_ifs <;> omega

theorem digitVal_le {c : Nat} (h : isAsciiDigit c = true) : digitVal c ≤ 9 := by
  simp only [isAsciiDigit, Bool.or_eq_true, decide_eq_true_eq] at h
  unfold digitVal
  split_ifs <;> omega

theorem toNatDigits_le_9999 {ys : Str} (hlen : ys.length = 4)
    (hd : ∀ c ∈ ys, isAsciiDigit c = true) : toNatDigits ys ≤ 9999 := by
  rcases ys with _ | ⟨a, _ | ⟨b, _ | ⟨c, _ | ⟨d, _ | ⟨e, t⟩⟩⟩⟩⟩ <;>
    simp only [List.length_nil, List.length_cons] at hlen <;> try omega
  have ha := digitVal_le (hd a (by simp))
  have hb := digitVal_le (hd b (by simp))
  have hc := digitVal_le (hd c (by simp))
  have hdd := digitVal_le (hd d (by simp))
  simp only [toNatDigits, List.foldl]
  omega

theorem pdTextDate_bounds {s : Str} {y m d : Nat}
    (h : pdTextDate s = some (y, m, d)) :
    1 ≤ m ∧ m ≤ 12 ∧ 1 ≤ d ∧ d ≤ 31 ∧ y ≤ 9999 := by
  unfold pdTextDate at h
  rcases hps : pdTextParts s with _ | ⟨ys, _ | ⟨ms, _ | ⟨ds, _ | ⟨e4, t⟩⟩⟩⟩ <;>
    rw [hps] at h <;> try simp at h
  obtain ⟨⟨hda, -, -, hlen4, -⟩, ⟨h1m, h2m, h1d, h2d⟩, hy, hm, hd⟩ := h
  subst hy
  subst hm
  subst hd
  have h31 := daysInMonth_le (toNatDigits ys) (toNatDigits ms)
  have hy9 := toNatDigits_le_9999 hlen4 hda
  exact ⟨h1m, h2m, h1d, by omega, hy9⟩

theorem pdTextDate_some_sep {s : Str} {y m d : Nat}
    (h : pdTextDate s = some (y, m, d)) :
    s.contains 0x2F = true ∨ s.contains 0x2D = true := by
  by_contra hcon
  push_neg at hcon
  simp only [Bool.not_eq_true] at hcon
  unfold pdTextDate pdTextParts at h
  rw [if_neg (by rw [hcon.1]; simp), if_neg (by rw [hcon.2]; simp)] at h
  simp at h

theorem pdTextDate_some_not_all_digits {s : Str} {y m d : Nat}
    (h : pdTextDate s = some (y, m, d)) : ¬(s.all isDigitCp = true) := by
  intro hall
  rw [List.all_eq_true] at hall
  rcases pdTextDate_some_sep h with hc | hc
  · have : (0x2F : Nat) ∈ s := by simpa using hc
    have := hall _ this
    simp [isDigitCp] at this
  · have : (0x2D : Nat) ∈ s := by simpa using hc
    have := hall _ this
    simp [isDigitCp] at this

/-- C6 (amended to the registry build's `parse_date`; the step4 variant
returns the raw string on a free-text parse failure, see the
counterexample): output is always `YYYY/MM/DD` or `""`; integers and
4–5-digit numeric strings are serials converted against 1899-12-30 on
`[1, 73050]` and `""` outside it; free-text years outside `[1950, 2100]`
and all parse failures yield `""`. -/
theorem C6_parse_date :
    (∀ v : PyVal, pyDateValid v → parse_date v = [] ∨ isYMDForm (parse_date v)) ∧
    (∀ n : Int, 1 ≤ n → n ≤ 73050 →
      parse_date (.int n) = formatSerial n ∧ isYMDForm (formatSerial n)) ∧
    (∀ n : Int, ¬(1 ≤ n ∧ n ≤ 73050) → parse_date (.int n) = []) ∧
    (∀ s : Str, nanWord (pyStrip s) = false →
      (pyStrip s).all isDigitCp = true → pyStrip s ≠ [] →
      4 ≤ (pyStrip s).length → (pyStrip s).length ≤ 5 →
      1 ≤ toNatDigits (pyStrip s) → toNatDigits (pyStrip s) ≤ 73050 →
      parse_date (.str s) = formatSerial (toNatDigits (pyStrip s))) ∧
    (∀ (s : Str) (y m d : Nat), nanWord (pyStrip s) = false →
      pdTextDate (pyStrip s) = some (y, m, d) → (y < 1950 ∨ 2100 < y) →
      parse_date (.str s) = []) ∧
    (∀ s : Str, nanWord (pyStrip s) = false →
      pdTextDate (pyStrip s) = none →
      ¬((pyStrip s).all isDigitCp = true ∧ pyStrip s ≠ [] ∧
        4 ≤ (pyStrip s).length ∧ (pyStrip s).length ≤ 5) →
      parse_date (.str s) = []) ∧
    parse_date (.int 45000) = codes "2023/03/15" ∧
    parse_date (.int 80000) = [] ∧
    parse_date (.str (codes "2024/13/40")) = [] ∧
    (∀ s : Str, nanWord (pyStrip s) = false →
      pdTextDate (pyStrip s) = none → parse_date_step4 (.str s) = pyStrip s) := by
  have hint : ∀ n : Int, 1 ≤ n → n ≤ 73050 →
      parse_date (.int n) = formatSerial n ∧ isYMDForm (formatSerial n) := by
    intro n h1 h2
    exact ⟨by simp only [parse_date]; rw [if_pos ⟨h1, h2⟩],
      formatSerial_form n h1 h2⟩
  have htext : ∀ s : Str, parse_date (.str s) = [] ∨ isYMDForm (parse_date (.str s)) := by
    intro s
    simp only [parse_date]
    by_cases h1 : nanWord (pyStrip s) = true
    · rw [if_pos h1]; exact Or.inl rfl
    rw [if_neg h1]
    by_cases h2 : (pyStrip s).all isDigitCp = true ∧ pyStrip s ≠ [] ∧
        4 ≤ (pyStrip s).length ∧ (pyStrip s).length ≤ 5
    · rw [if_pos h2]
      by_cases h3 : 1 ≤ toNatDigits (pyStrip s) ∧ toNatDigits (pyStrip s) ≤ 73050
      · rw [if_pos h3]
        exact Or.inr (formatSerial_form _ (by exact_mod_cast h3.1)
          (by exact_mod_cast h3.2))
      · rw [if_neg h3]
        cases hp : pdTextDate (pyStrip s) with
        | none => exact Or.inl rfl
        | some t =>
          rcases t with ⟨y, m, d⟩
          dsimp only
          by_cases h4 : y < 1950 ∨ 2100 < y
          · rw [if_pos h4]; exact Or.inl rfl
          · rw [if_neg h4]
            push_neg at h4
            have hb := pdTextDate_bounds hp
            exact Or.inr (formatDate_form (by omega) (by omega) (by omega))
    · rw [if_neg h2]
      cases hp : pdTextDate (pyStrip s) with
      | none => exact Or.inl rfl
      | some t =>
        rcases t with ⟨y, m, d⟩
        dsimp only
        by_cases h4 : y < 1950 ∨ 2100 < y
        · rw [if_pos h4]; exact Or.inl rfl
        · rw [if_neg h4]
          push_neg at h4
          have hb := pdTextDate_bounds hp
          exact Or.inr (formatDate_form (by omega) (by omega) (by omega))
  refine ⟨?_, hint, ?_, ?_, ?_, ?_, by decide, by decide, by decide, ?_⟩
  · intro v hv
    match v with
    | .nan => exact Or.inl rfl
    | .dt y m d =>
      refine Or.inr ?_
      obtain ⟨-, hy, -, hm, -, hd⟩ := hv
      exact formatDate_form (by omega) (by omega) (by omega)
    | .int n =>
      by_cases h : 1 ≤ n ∧ n ≤ 73050
      · refine Or.inr ?_
        rw [(hint n h.1 h.2).1]
        exact (hint n h.1 h.2).2
      · exact Or.inl (by simp only [parse_date]; rw [if_neg h])
    | .str s => exact htext s
  · intro n h
    simp only [parse_date]
    rw [if_neg h]
  · intro s hw hall hne h4 h5 hs1 hs2
    simp only [parse_date]
    rw [if_neg (by simp [hw]), if_pos ⟨hall, hne, h4, h5⟩,
      if_pos ⟨hs1, hs2⟩]
  · intro s y m d hw hp hy
    simp only [parse_date]
    rw [if_neg (by simp [hw]),
      if_neg (fun hcon => pdTextDate_some_not_all_digits hp hcon.1), hp]
    dsimp only
    rw [if_pos hy]
  · intro s hw hp hdig
    simp only [parse_date]
    rw [if_neg (by simp [hw]), if_neg hdig, hp]
  · intro s hw hp
    simp only [parse_date_step4]
    rw [if_neg (by simp [hw]), hp]

/-- Counterexample to C6 as stated: the step4 `parse_date` (also cited by
the claim) returns the input string, not `""`, when free-text parsing
fails. -/
theorem C6_counterexample :
    parse_date_step4 (.str (codes "2024/13/40")) = codes "2024/13/40" ∧
      parse_date_step4 (.str (codes "2024/13/40")) ≠ [] := by
  exact ⟨by decide, by decide⟩

/-- Witness for C6 at the serial 45000 and at an out-of-range serial. -/
theorem C6_parse_date_witness :
    (parse_date (.int 45000) = [] ∨ isYMDForm (parse_date (.int 45000))) ∧
      parse_date (.int 45000) = formatSerial 45000 ∧
      parse_date (.int 80000) = [] := by
  refine ⟨C6_parse_date.1 (.int 45000) trivial, ?_, ?_⟩
  · exact (C6_parse_date.2.1 45000 (by decide) (by decide)).1
  · exact C6_parse_date.2.2.1 80000 (by decide)

/-! ### Lemmas about postal-code normalization -/

theorem postalEntry_str (pad0 : Bool) (s : Str) :
    postalEntry pad0 (.str s) =
      if nanWord (pyStrip s) = true then [] else postalCore pad0 (pyStrip s) :=
  rfl

/-- C7 (amended): 1–6 digits are zero-padded to 7 and hyphen-formatted,
exactly 7 digits are hyphen-formatted, 8 or more digits return the
cleaned value unmodified, nan-like input yields `""`; but a digit-free
input yields `"000-0000"` in the step1/rebuild variant and the cleaned
input in the step5 variant, not `""`. -/
theorem C7_normalize_postal :
    (∀ s : Str, nanWord (pyStrip s) = false →
      1 ≤ (postalDigits (pyStrip s)).length →
      (postalDigits (pyStrip s)).length ≤ 6 →
      normalize_postal_code_step1 (.str s) =
        hyphen7 (zfill 7 (postalDigits (pyStrip s))) ∧
      normalize_postal_code_step5 (.str s) =
        hyphen7 (zfill 7 (postalDigits (pyStrip s)))) ∧
    (∀ s : Str, nanWord (pyStrip s) = false →
      (postalDigits (pyStrip s)).length = 7 →
      normalize_postal_code_step1 (.str s) = hyphen7 (postalDigits (pyStrip s)) ∧
      normalize_postal_code_step5 (.str s) = hyphen7 (postalDigits (pyStrip s))) ∧
    (∀ s : Str, nanWord (pyStrip s) = false →
      8 ≤ (postalDigits (pyStrip s)).length →
      normalize_postal_code_step1 (.str s) = postalClean (pyStrip s) ∧
      normalize_postal_code_step5 (.str s) = postalClean (pyStrip s)) ∧
    (∀ s : Str, nanWord (pyStrip s) = false →
      (postalDigits (pyStrip s)).length = 0 →
      normalize_postal_code_step1 (.str s) = codes "000-0000" ∧
      normalize_postal_code_step5 (.str s) = postalClean (pyStrip s)) ∧
    normalize_postal_code_step1 (.str (codes "1234567")) = codes "123-4567" ∧
    normalize_postal_code_step1 (.str (codes "123-4567")) = codes "123-4567" ∧
    normalize_postal_code_step1 (.str (codes "１２３ー４５６７")) =
      codes "123-4567" ∧
    normalize_postal_code_step1 (.str (codes "123")) = codes "000-0123" ∧
    normalize_postal_code_step5 (.str (codes "123")) = codes "000-0123" ∧
    normalize_postal_code_step1 (.str []) = [] ∧
    normalize_postal_code_step5 (.str []) = [] := by
  have hcore16 : ∀ (p : Bool) (v : Str), 1 ≤ (postalDigits v).length →
      (postalDigits v).length ≤ 6 →
      postalCore p v = hyphen7 (zfill 7 (postalDigits v)) := by
    intro p v h1 h6
    have hin : (if (postalDigits v).length ≤ 6 ∧
        (p = true ∨ 1 ≤ (postalDigits v).length) then zfill 7 (postalDigits v)
        else postalDigits v) = zfill 7 (postalDigits v) :=
      if_pos ⟨h6, Or.inr h1⟩
    unfold postalCore
    dsimp only
    rw [hin, if_pos (zfill_length (by omega))]
  have hcore7 : ∀ (p : Bool) (v : Str), (postalDigits v).length = 7 →
      postalCore p v = hyphen7 (postalDigits v) := by
    intro p v h7
    have hin : (if (postalDigits v).length ≤ 6 ∧
        (p = true ∨ 1 ≤ (postalDigits v).length) then zfill 7 (postalDigits v)
        else postalDigits v) = postalDigits v :=
      if_neg (fun hcon => absurd hcon.1 (by omega))
    unfold postalCore
    dsimp only
    rw [hin, if_pos h7]
  have hcore8 : ∀ (p : Bool) (v : Str), 8 ≤ (postalDigits v).length →
      postalCore p v = postalClean v := by
    intro p v h8
    have hin : (if (postalDigits v).length ≤ 6 ∧
        (p = true ∨ 1 ≤ (postalDigits v).length) then zfill 7 (postalDigits v)
        else postalDigits v) = postalDigits v :=
      if_neg (fun hcon => absurd hcon.1 (by omega))
    unfold postalCore
    dsimp only
    rw [hin, if_neg (by omega)]
  refine ⟨?_, ?_, ?_, ?_, by decide, by decide, by decide, by decide,
    by decide, by decide, by decide⟩
  · intro s hw h1 h6
    rw [normalize_postal_code_step1, normalize_postal_code_step5,
      postalEntry_str, postalEntry_str, if_neg (by simp [hw]),
      if_neg (by simp [hw]), hcore16 true _ h1 h6, hcore16 false _ h1 h6]
    exact ⟨rfl, rfl⟩
  · intro s hw h7
    rw [normalize_postal_code_step1, normalize_postal_code_step5,
      postalEntry_str, postalEntry_str, if_neg (by simp [hw]),
      if_neg (by simp [hw]), hcore7 true _ h7, hcore7 false _ h7]
    exact ⟨rfl, rfl⟩
  · intro s hw h8
    rw [normalize_postal_code_step1, normalize_postal_code_step5,
      postalEntry_str, postalEntry_str, if_neg (by simp [hw]),
      if_neg (by simp [hw]), hcore8 true _ h8, hcore8 false _ h8]
    exact ⟨rfl, rfl⟩
  · intro s hw h0
    rw [normalize_postal_code_step1, normalize_postal_code_step5,
      postalEntry_str, postalEntry_str, if_neg (by simp [hw]),
      if_neg (by simp [hw])]
    constructor
    · have hin : (if (postalDigits (pyStrip s)).length ≤ 6 ∧
          (true = true ∨ 1 ≤ (postalDigits (pyStrip s)).length) then
          zfill 7 (postalDigits (pyStrip s))
          else postalDigits (pyStrip s)) = zfill 7 (postalDigits (pyStrip s)) :=
        if_pos ⟨by omega, Or.inl rfl⟩
      unfold postalCore
      dsimp only
      rw [hin, if_pos (zfill_length (by omega))]
      have hnil : postalDigits (pyStrip s) = [] := List.length_eq_zero.mp h0
      rw [hnil]
      decide
    · have hin : (if (postalDigits (pyStrip s)).length ≤ 6 ∧
          (false = true ∨ 1 ≤ (postalDigits (pyStrip s)).length) then
          zfill 7 (postalDigits (pyStrip s))
          else postalDigits (pyStrip s)) = postalDigits (pyStrip s) :=
        if_neg (fun hcon => by
          rcases hcon.2 with hf | hone
          · exact absurd hf (by simp)
          · omega)
      unfold postalCore
      dsimp only
      rw [hin, if_neg (by omega)]

/-- Counterexample to C7 as stated: an input with no digits does not
yield `""` — step1 zero-pads it to `"000-0000"`, step5 returns the
cleaned input. -/
theorem C7_counterexample :
    normalize_postal_code_step1 (.str (codes "abc")) = codes "000-0000" ∧
      normalize_postal_code_step5 (.str (codes "abc")) = codes "abc" ∧
      normalize_postal_code_step1 (.str (codes "abc")) ≠ [] ∧
      normalize_postal_code_step5 (.str (codes "abc")) ≠ [] := by
  exact ⟨by decide, by decide, by decide, by decide⟩

/-- Witness for C7 at the concrete three-digit example. -/
theorem C7_normalize_postal_witness :
    normalize_postal_code_step1 (.str (codes "123")) =
      hyphen7 (zfill 7 (postalDigits (pyStrip (codes "123")))) ∧
    normalize_postal_code_step5 (.str (codes "123")) =
      hyphen7 (zfill 7 (postalDigits (pyStrip (codes "123")))) := by
  exact C7_normalize_postal.1 (codes "123") (by decide) (by decide) (by decide)

/-! ### Lemmas about the text normalizer -/

theorem lookup_val_mem {tbl : List (Nat × Nat)} {c z : Nat}
    (h : tbl.lookup c = some z) : z ∈ tbl.map (fun p => p.2) := by
  induction tbl with
  | nil => simp [List.lookup] at h
  | cons p t ih =>
    obtain ⟨k, v⟩ := p
    rw [List.lookup_cons] at h
    by_cases hc : c = k
    · simp only [hc, beq_self_eq_true, cond_true, Option.some.injEq] at h
      simp [h]
    · simp only [beq_eq_false_iff_ne.mpr hc, cond_false] at h
      simp [ih h]

theorem lookup_none_of_ne {tbl : List (Nat × Nat)} {c : Nat}
    (h : ∀ p ∈ tbl, p.1 ≠ c) : tbl.lookup c = none := by
  induction tbl with
  | nil => rfl
  | cons p t ih =>
    obtain ⟨k, v⟩ := p
    rw [List.lookup_cons]
    have hk : ¬c = k := fun he => h (k, v) (by simp) (by simp [he])
    simp only [beq_eq_false_iff_ne.mpr hk, cond_false]
    exact ih fun q hq => h q (by simp [hq])

theorem hanBase_isSome {c : Nat} (h1 : 0xFF61 ≤ c) (h2 : c ≤ 0xFF9F) :
    (hanKanaBase.lookup c).isSome = true := by
  interval_cases c <;> decide

theorem hanSingle_not_hw (c : Nat) :
    ¬(0xFF61 ≤ hanSingle c ∧ hanSingle c ≤ 0xFF9F) := by
  by_cases hw : 0xFF61 ≤ c ∧ c ≤ 0xFF9F
  · have hs := hanBase_isSome hw.1 hw.2
    rcases Option.isSome_iff_exists.mp hs with ⟨z, hz⟩
    have hmem := lookup_val_mem hz
    have hvals : ∀ v ∈ hanKanaBase.map (fun p => p.2),
        ¬(0xFF61 ≤ v ∧ v ≤ 0xFF9F) := by decide
    rw [hanSingle, hz]
    exact hvals z hmem
  · have hn : hanKanaBase.lookup c = none := by
      refine lookup_none_of_ne fun p hp he => ?_
      have hkeys : ∀ p ∈ hanKanaBase, 0xFF61 ≤ p.1 ∧ p.1 ≤ 0xFF9F := by decide
      exact hw (he ▸ hkeys p hp)
    rw [hanSingle, hn]
    exact hw

theorem hanSingle_choice (c : Nat) :
    hanSingle c = c ∨ hanSingle c ∈ hanKanaBase.map (fun p => p.2) := by
  rw [hanSingle]
  cases hz : hanKanaBase.lookup c with
  | none => exact Or.inl rfl
  | some z => exact Or.inr (lookup_val_mem hz)

theorem hanToZen_chars :
    ∀ (n : Nat) (s : Str), s.length ≤ n → ∀ c ∈ hanToZenKana s,
      (c ∈ s ∨ c ∈ ((hanKanaBase ++ hanKanaVoiced ++ hanKanaSemi).map
        (fun p => p.2))) ∧ ¬(0xFF61 ≤ c ∧ c ≤ 0xFF9F) := by
  intro n
  induction n with
  | zero =>
    intro s hs c hc
    rw [List.length_eq_zero.mp (Nat.le_zero.mp hs)] at hc
    simp [hanToZenKana] at hc
  | succ n ih =>
    intro s hs c hc
    match s with
    | [] => simp [hanToZenKana] at hc
    | [a] =>
      simp only [hanToZenKana, List.mem_singleton] at hc
      subst hc
      refine ⟨?_, hanSingle_not_hw a⟩
      rcases hanSingle_choice a with h | h
      · rw [h]
        exact Or.inl (by simp)
      · refine Or.inr ?_
        simp only [List.map_append, List.mem_append]
        exact Or.inl (Or.inl h)
    | a :: b :: rest =>
      have hrest : rest.length ≤ n := by
        simp only [List.length_cons] at hs
        omega
      have hrest2 : (b :: rest).length ≤ n := by
        simp only [List.length_cons] at hs ⊢
        omega
      rw [hanToZenKana] at hc
      by_cases hb1 : b = 0xFF9E
      · rw [if_pos hb1] at hc
        cases hv : hanKanaVoiced.lookup a with
        | some z =>
          rw [hv] at hc
          rcases List.mem_cons.mp hc with hcz | hcr
          · subst hcz
            have hvm := lookup_val_mem hv
            have hvals : ∀ v ∈ hanKanaVoiced.map (fun p => p.2),
                ¬(0xFF61 ≤ v ∧ v ≤ 0xFF9F) := by decide
            refine ⟨Or.inr ?_, hvals c hvm⟩
            simp only [List.map_append, List.mem_append]
            exact Or.inl (Or.inr hvm)
          · rcases ih rest hrest c hcr with ⟨hm, hhw⟩
            exact ⟨hm.imp (fun h => by simp [h]) id, hhw⟩
        | none =>
          rw [hv] at hc
          rcases List.mem_cons.mp hc with hcz | hcr
          · subst hcz
            refine ⟨?_, hanSingle_not_hw a⟩
            rcases hanSingle_choice a with h | h
            · rw [h]
              exact Or.inl (by simp)
            · refine Or.inr ?_
              simp only [List.map_append, List.mem_append]
              exact Or.inl (Or.inl h)
          · rcases ih (b :: rest) hrest2 c hcr with ⟨hm, hhw⟩
            exact ⟨hm.imp (fun h => by simpa using Or.inr h) id, hhw⟩
      · rw [if_neg hb1] at hc
        by_cases hb2 : b = 0xFF9F
        · rw [if_pos hb2] at hc
          cases hv : hanKanaSemi.lookup a with
          | some z =>
            rw [hv] at hc
            rcases List.mem_cons.mp hc with hcz | hcr
            · subst hcz
              have hvm := lookup_val_mem hv
              have hvals : ∀ v ∈ hanKanaSemi.map (fun p => p.2),
                  ¬(0xFF61 ≤ v ∧ v ≤ 0xFF9F) := by decide
              refine ⟨Or.inr ?_, hvals c hvm⟩
              simp only [List.map_append, List.mem_append]
              exact Or.inr hvm
            · rcases ih rest hrest c hcr with ⟨hm, hhw⟩
              exact ⟨hm.imp (fun h => by simp [h]) id, hhw⟩
          | none =>
            rw [hv] at hc
            rcases List.mem_cons.mp hc with hcz | hcr
            · subst hcz
              refine ⟨?_, hanSingle_not_hw a⟩
              rcases hanSingle_choice a with h | h
              · rw [h]
                exact Or.inl (by simp)
              · refine Or.inr ?_
                simp only [List.map_append, List.mem_append]
                exact Or.inl (Or.inl h)
            · rcases ih (b :: rest) hrest2 c hcr with ⟨hm, hhw⟩
              exact ⟨hm.imp (fun h => by simpa using Or.inr h) id, hhw⟩
        · rw [if_neg hb2] at hc
          rcases List.mem_cons.mp hc with hcz | hcr
          · subst hcz
            refine ⟨?_, hanSingle_not_hw a⟩
            rcases hanSingle_choice a with h | h
            · rw [h]
              exact Or.inl (by simp)
            · refine Or.inr ?_
              simp only [List.map_append, List.mem_append]
              exact Or.inl (Or.inl h)
          · rcases ih (b :: rest) hrest2 c hcr with ⟨hm, hhw⟩
            exact ⟨hm.imp (fun h => by simpa using Or.inr h) id, hhw⟩

theorem hanToZen_id :
    ∀ (n : Nat) (s : Str), s.length ≤ n →
      (∀ c ∈ s, ¬(0xFF61 ≤ c ∧ c ≤ 0xFF9F)) → hanToZenKana s = s := by
  intro n
  induction n with
  | zero =>
    intro s hs _
    rw [List.length_eq_zero.mp (Nat.le_zero.mp hs)]
    rfl
  | succ n ih =>
    intro s hs hok
    match s with
    | [] => rfl
    | [a] =>
      have ha : hanKanaBase.lookup a = none := by
        refine lookup_none_of_ne fun p hp he => ?_
        have hkeys : ∀ p ∈ hanKanaBase, 0xFF61 ≤ p.1 ∧ p.1 ≤ 0xFF9F := by decide
        exact hok a (by simp) (he ▸ hkeys p hp)
      simp [hanToZenKana, hanSingle, ha]
    | a :: b :: rest =>
      have hb : ¬(0xFF61 ≤ b ∧ b ≤ 0xFF9F) := hok b (by simp)
      have ha : hanKanaBase.lookup a = none := by
        refine lookup_none_of_ne fun p hp he => ?_
        have hkeys : ∀ p ∈ hanKanaBase, 0xFF61 ≤ p.1 ∧ p.1 ≤ 0xFF9F := by decide
        exact hok a (by simp) (he ▸ hkeys p hp)
      have hrec : hanToZenKana (b :: rest) = b :: rest := by
        refine ih (b :: rest) ?_ ?_
        · simp only [List.length_cons] at hs ⊢
          omega
        · intro c hcm
          exact hok c (by simp [hcm])
      rw [hanToZenKana, if_neg (fun he => hb (by omega)),
        if_neg (fun he => hb (by omega)), hanSingle, ha, hrec]
      rfl

theorem repGo_subset (t : Str) :
    ∀ (fuel : Nat) (s : Str), ∀ c ∈ repGo t fuel s, c ∈ s := by
  intro fuel
  induction fuel with
  | zero =>
    intro s c hc
    cases s with
    | nil => simp [repGo] at hc
    | cons a r => exact hc
  | succ f ih =>
    intro s c hc
    cases s with
    | nil => simp [repGo] at hc
    | cons a r =>
      rw [repGo] at hc
      by_cases hp : t ≠ [] ∧ t.isPrefixOf (a :: r)
      · rw [if_pos hp] at hc
        have := ih _ c hc
        have hd : c ∈ r := List.drop_subset _ r this
        simp [hd]
      · rw [if_neg hp] at hc
        rcases List.mem_cons.mp hc with h | h
        · simp [h]
        · simp [ih r c h]

theorem replaceAll_subset {s t : Str} : ∀ c ∈ replaceAll s t, c ∈ s :=
  repGo_subset t s.length s

theorem stripTitles_subset (titles : List Str) :
    ∀ (s : Str), ∀ c ∈ stripTitles titles s, c ∈ s := by
  induction titles with
  | nil => intro s c hc; simpa [stripTitles] using hc
  | cons t ts ih =>
    intro s c hc
    rw [stripTitles, List.foldl_cons] at hc
    exact replaceAll_subset c (ih (replaceAll s t) c hc)

theorem zenToHanC_inv (f : Nat) :
    ¬(0xFF01 ≤ zenToHanC f ∧ zenToHanC f ≤ 0xFF5E) ∧
      zenToHanC f ≠ 0x3000 := by
  simp only [zenToHanC]
  split_ifs <;> omega

theorem kanaVals_ok :
    ∀ v ∈ (hanKanaBase ++ hanKanaVoiced ++ hanKanaSemi).map (fun p => p.2),
      ¬(0xFF01 ≤ v ∧ v ≤ 0xFF5E) ∧ v ≠ 0x3000 := by decide

theorem kanjiVals_ok :
    ∀ z ∈ kanjiNumTable.map (fun p => p.2),
      ¬(0xFF01 ≤ z ∧ z ≤ 0xFF5E) ∧ z ≠ 0x3000 ∧
        ¬(0xFF61 ≤ z ∧ z ≤ 0xFF9F) ∧ kanjiNumTable.lookup z = none := by decide

theorem preChar (cls : List Nat) (titles : List Str) (s : Str) :
    ∀ d ∈ classRemove cls
        (stripTitles titles (kanjiTr (hanToZenKana (zenToHanNoKana s)))),
      (¬(0xFF01 ≤ d ∧ d ≤ 0xFF5E) ∧ d ≠ 0x3000 ∧
        ¬(0xFF61 ≤ d ∧ d ≤ 0xFF9F) ∧ kanjiNumTable.lookup d = none) ∧
      d ∉ cls := by
  intro d hd
  rw [classRemove] at hd
  have hmf := List.mem_filter.mp hd
  have hncls : d ∉ cls := by simpa using hmf.2
  have hst : d ∈ kanjiTr (hanToZenKana (zenToHanNoKana s)) :=
    stripTitles_subset titles _ d hmf.1
  rw [kanjiTr] at hst
  rcases List.mem_map.mp hst with ⟨e, he, hded⟩
  rcases hanToZen_chars (zenToHanNoKana s).length (zenToHanNoKana s) le_rfl e he
    with ⟨hmem, hHWe⟩
  have hFWe : ¬(0xFF01 ≤ e ∧ e ≤ 0xFF5E) ∧ e ≠ 0x3000 := by
    rcases hmem with hz | hk
    · rcases List.mem_map.mp hz with ⟨f, _, hf⟩
      rw [← hf]
      exact zenToHanC_inv f
    · exact kanaVals_ok e hk
  refine ⟨?_, hncls⟩
  cases hlk : kanjiNumTable.lookup e with
  | some z =>
    have hdz : d = z := by rw [← hded, hlk]; rfl
    rw [hdz]
    exact kanjiVals_ok z (lookup_val_mem hlk)
  | none =>
    have hde : d = e := by rw [← hded, hlk]; rfl
    rw [hde]
    exact ⟨hFWe.1, hFWe.2, hHWe, hlk⟩

theorem pyLowerC_idem (c : Nat) : pyLowerC (pyLowerC c) = pyLowerC c := by
  simp only [pyLowerC]
  split_ifs <;> omega

theorem lowerRange_ok (x : Nat) (h1 : 0x61 ≤ x) (h2 : x ≤ 0x7A) :
    kanjiNumTable.lookup x = none ∧ x ∉ cls56 := by
  interval_cases x <;> exact ⟨by decide, by decide⟩

theorem pyLowerC_inv {d : Nat}
    (hFW : ¬(0xFF01 ≤ d ∧ d ≤ 0xFF5E)) (h30 : d ≠ 0x3000)
    (hHW : ¬(0xFF61 ≤ d ∧ d ≤ 0xFF9F))
    (hK : kanjiNumTable.lookup d = none) (hcls : d ∉ cls56) :
    matchKeyChar cls56 (pyLowerC d) := by
  simp only [matchKeyChar]
  by_cases h1 : 0x41 ≤ d ∧ d ≤ 0x5A
  · have hd : pyLowerC d = d + 0x20 := by
      simp only [pyLowerC]
      rw [if_pos h1]
    have hr := lowerRange_ok (d + 0x20) (by omega) (by omega)
    rw [hd]
    exact ⟨by omega, by omega, by omega, hr.1, hr.2⟩
  · have h2 : ¬(0xFF21 ≤ d ∧ d ≤ 0xFF3A) := by omega
    have hd : pyLowerC d = d := by
      simp only [pyLowerC]
      rw [if_neg h1, if_neg h2]
    rw [hd]
    exact ⟨hFW, h30, hHW, hK, hcls⟩

theorem map_id_of_fix (f : Nat → Nat) :
    ∀ (s : Str), (∀ c ∈ s, f c = c) → s.map f = s := by
  intro s h
  induction s with
  | nil => rfl
  | cons a t ih =>
    rw [List.map_cons, h a (by simp), ih fun c hc => h c (by simp [hc])]

theorem normalizeChar (s : Str) :
    ∀ c ∈ normalize_text_for_matching s,
      matchKeyChar cls56 c ∧ pyLowerC c = c := by
  intro c hc
  rw [normalize_text_for_matching, pyLower] at hc
  rcases List.mem_map.mp hc with ⟨d, hd, hcd⟩
  rcases preChar cls56 corpTitles56 s d hd with ⟨⟨hFW, h30, hHW, hK⟩, hcls⟩
  subst hcd
  exact ⟨pyLowerC_inv hFW h30 hHW hK hcls, pyLowerC_idem d⟩

theorem normalizeChar2 (s : Str) :
    ∀ c ∈ normalize_text_step2 s, matchKeyChar cls2 c := by
  intro c hc
  rw [normalize_text_step2] at hc
  rcases preChar cls2 corpTitles2 s c hc with ⟨⟨hFW, h30, hHW, hK⟩, hcls⟩
  exact ⟨hFW, h30, hHW, hK, hcls⟩

/-- The spec claims `normalize_text_for_matching` (and the step2
`normalize_text`) are idempotent.  They are not: a corporate title that
only becomes contiguous after an inner title has been deleted is stripped
by a second pass but survives the first.  On 株式株式会社会社 the first
pass leaves 株式会社 and the second deletes it. -/
theorem C5_counterexample :
    normalize_text_for_matching (normalize_text_for_matching
      (codes "株式株式会社会社")) ≠
      normalize_text_for_matching (codes "株式株式会社会社") ∧
    normalize_text_step2 (normalize_text_step2 (codes "株式株式会社会社")) ≠
      normalize_text_step2 (codes "株式株式会社会社") := by
  decide

/-- C5 (amended): both normalizers are idempotent on every input whose
normal form is already a fixpoint of the title-stripping pass — width
unification, kana composition, kanji-numeral mapping, symbol removal and
case folding are each identities on any normalizer output, so only the
title pass can act again. -/
theorem C5_normalize_conditional_idempotent :
    (∀ s : Str,
      stripTitles corpTitles56 (normalize_text_for_matching s) =
        normalize_text_for_matching s →
      normalize_text_for_matching (normalize_text_for_matching s) =
        normalize_text_for_matching s) ∧
    (∀ s : Str,
      stripTitles corpTitles2 (normalize_text_step2 s) =
        normalize_text_step2 s →
      normalize_text_step2 (normalize_text_step2 s) =
        normalize_text_step2 s) := by
  constructor
  · intro s hfix
    have hchar := normalizeChar s
    have h1 : zenToHanNoKana (normalize_text_for_matching s) =
        normalize_text_for_matching s := by
      rw [zenToHanNoKana]
      refine map_id_of_fix _ _ fun c hc => ?_
      have h := (hchar c hc).1
      simp only [matchKeyChar] at h
      simp only [zenToHanC]
      rw [if_neg h.1, if_neg (by simpa using h.2.1)]
    have h2 : hanToZenKana (normalize_text_for_matching s) =
        normalize_text_for_matching s := by
      refine hanToZen_id (normalize_text_for_matching s).length _ le_rfl
        fun c hc => ?_
      have h := (hchar c hc).1
      simp only [matchKeyChar] at h
      exact h.2.2.1
    have h3 : kanjiTr (normalize_text_for_matching s) =
        normalize_text_for_matching s := by
      rw [kanjiTr]
      refine map_id_of_fix _ _ fun c hc => ?_
      have h := (hchar c hc).1
      simp only [matchKeyChar] at h
      rw [h.2.2.2.1]
      rfl
    have h5 : classRemove cls56 (normalize_text_for_matching s) =
        normalize_text_for_matching s := by
      rw [classRemove]
      refine List.filter_eq_self.mpr fun c hc => ?_
      have h := (hchar c hc).1
      simp only [matchKeyChar] at h
      simpa using h.2.2.2.2
    have h6 : pyLower (normalize_text_for_matching s) =
        normalize_text_for_matching s := by
      rw [pyLower]
      exact map_id_of_fix _ _ fun c hc => (hchar c hc).2
    conv_lhs => rw [normalize_text_for_matching]
    rw [h1, h2, h3, hfix, h5, h6]
  · intro s hfix
    have hchar := normalizeChar2 s
    have h1 : zenToHanNoKana (normalize_text_step2 s) =
        normalize_text_step2 s := by
      rw [zenToHanNoKana]
      refine map_id_of_fix _ _ fun c hc => ?_
      have h := hchar c hc
      simp only [matchKeyChar] at h
      simp only [zenToHanC]
      rw [if_neg h.1, if_neg (by simpa using h.2.1)]
    have h2 : hanToZenKana (normalize_text_step2 s) =
        normalize_text_step2 s := by
      refine hanToZen_id (normalize_text_step2 s).length _ le_rfl
        fun c hc => ?_
      have h := hchar c hc
      simp only [matchKeyChar] at h
      exact h.2.2.1
    have h3 : kanjiTr (normalize_text_step2 s) = normalize_text_step2 s := by
      rw [kanjiTr]
      refine map_id_of_fix _ _ fun c hc => ?_
      have h := hchar c hc
      simp only [matchKeyChar] at h
      rw [h.2.2.2.1]
      rfl
    have h5 : classRemove cls2 (normalize_text_step2 s) =
        normalize_text_step2 s := by
      rw [classRemove]
      refine List.filter_eq_self.mpr fun c hc => ?_
      have h := hchar c hc
      simp only [matchKeyChar] at h
      simpa using h.2.2.2.2
    conv_lhs => rw [normalize_text_step2]
    rw [h1, h2, h3, hfix, h5]

/-! ### Lemmas about the identifier issuer -/

theorem hashidsSetup_eq :
    hashidsSetup ID_SALT ID_ALPHABET = (ALPHA, SEPS, GUARDS) := by decide

theorem getD_cons_set_perm (x : Nat) :
    ∀ (t : List Nat) (p : Nat), p < t.length →
      (t.getD p 0 :: t.set p x).Perm (x :: t) := by
  intro t
  induction t with
  | nil => intro p hp; simp at hp
  | cons z t ih =>
    intro p hp
    cases p with
    | zero =>
      simp only [List.getD_cons_zero, List.set_cons_zero]
      exact List.Perm.swap x z t
    | succ p =>
      have hp2 : p < t.length := by
        simp only [List.length_cons] at hp
        omega
      simp only [List.getD_cons_succ, List.set_cons_succ]
      refine List.Perm.trans (List.Perm.swap z (t.getD p 0) (t.set p x)) ?_
      refine List.Perm.trans (List.Perm.cons z (ih p hp2)) ?_
      exact List.Perm.swap x z t

theorem set_swap_perm :
    ∀ (l : List Nat) (p q : Nat), q < p → p < l.length →
      ((l.set p (l.getD q 0)).set q (l.getD p 0)).Perm l := by
  intro l
  induction l with
  | nil => intro p q hqp hp; simp at hp
  | cons c t ih =>
    intro p q hqp hp
    cases q with
    | zero =>
      cases p with
      | zero => omega
      | succ p =>
        have hp2 : p < t.length := by
          simp only [List.length_cons] at hp
          omega
        simp only [List.getD_cons_zero, List.getD_cons_succ,
          List.set_cons_succ, List.set_cons_zero]
        exact getD_cons_set_perm c t p hp2
    | succ q =>
      cases p with
      | zero => omega
      | succ p =>
        have h1 : q < p := by omega
        have hp2 : p < t.length := by
          simp only [List.length_cons] at hp
          omega
        simp only [List.getD_cons_succ, List.set_cons_succ]
        exact List.Perm.cons c (ih p q h1 hp2)

theorem reorderGo_perm (salt : Str) :
    ∀ (i index isum : Nat) (l : List Nat), i < l.length →
      (reorderGo salt i index isum l).Perm l := by
  intro i
  induction i with
  | zero => intro index isum l _; exact List.Perm.refl l
  | succ i ih =>
    intro index isum l hl
    simp only [reorderGo]
    have hswap := set_swap_perm l (i + 1)
      ((salt.getD (index % salt.length) 0 + index +
        (isum + salt.getD (index % salt.length) 0)) % (i + 1))
      (Nat.mod_lt _ (Nat.succ_pos i)) hl
    refine List.Perm.trans (ih _ _ _ ?_) hswap
    rw [hswap.length_eq]
    omega

theorem reorder_perm (l : List Nat) (s : Str) : (reorder l s).Perm l := by
  rw [reorder]
  split_ifs with h
  · exact List.Perm.refl l
  · cases l with
    | nil => exact List.Perm.refl []
    | cons a t =>
      exact reorderGo_perm s ((a :: t).length - 1) 0 0 (a :: t) (by simp)

/-- The facts about the working alphabet that survive any shuffle. -/
theorem permA_facts {A : Str} (h : A.Perm ALPHA) :
    A.length = 20 ∧ A.Nodup ∧
      ∀ c ∈ A, ID_ALPHABET.contains c = true ∧ GUARDS.contains c = false := by
  have hP : ∀ c ∈ ALPHA, ID_ALPHABET.contains c = true ∧
      GUARDS.contains c = false := by decide
  refine ⟨by rw [h.length_eq]; decide, h.nodup_iff.mpr (by decide),
    fun c hc => hP c (h.mem_iff.mp hc)⟩

theorem indexOf_getD {A : Str} (hnd : A.Nodup) {k : Nat} (hk : k < A.length) :
    A.indexOf (A.getD k 0) = k := by
  rw [List.getD_eq_getElem A 0 hk]
  exact List.indexOf_getElem hnd k hk

theorem foldr_unhash {A : Str} (hnd : A.Nodup) :
    ∀ ds : List Nat, (∀ k ∈ ds, k < A.length) →
      List.foldr (fun c acc => acc * A.length + A.indexOf c) 0
        (ds.map (fun k => A.getD k 0)) = Nat.ofDigits A.length ds := by
  intro ds
  induction ds with
  | nil => intro _; simp [Nat.ofDigits]
  | cons d t ih =>
    intro h
    rw [List.map_cons, List.foldr_cons, ih (fun k hk => h k (by simp [hk])),
      indexOf_getD hnd (h d (by simp)), Nat.ofDigits_cons]
    ring

theorem unhash_hashNum {A : Str} (hnd : A.Nodup) (hA : 2 ≤ A.length)
    {n : Nat} (hn : 1 ≤ n) : unhash (hashNum n A) A = n := by
  rw [hashNum_pos A hA n hn, unhash]
  rw [List.foldl_reverse]
  rw [foldr_unhash hnd _ fun k hk => Nat.digits_lt_base (by omega) hk]
  exact Nat.ofDigits_digits A.length n

theorem digits_shape {n : Nat} (h1 : 1 ≤ n) (h2 : n < 160000) :
    (∃ k0, Nat.digits 20 n = [k0]) ∨
    (∃ k0 k1, Nat.digits 20 n = [k0, k1]) ∨
    (∃ k0 k1 k2, Nat.digits 20 n = [k0, k1, k2]) ∨
    (∃ k0 k1 k2 k3, Nat.digits 20 n = [k0, k1, k2, k3]) := by
  have hlo : Nat.digits 20 n ≠ [] := Nat.digits_ne_nil_iff_ne_zero.mpr (by omega)
  have hhi : (Nat.digits 20 n).length ≤ 4 := by
    refine digits_length_le (by norm_num) ?_
    calc n < 160000 := h2
      _ = 20 ^ 4 := by norm_num
  rcases hd : Nat.digits 20 n with _ | ⟨a, _ | ⟨b, _ | ⟨c, _ | ⟨d, rest⟩⟩⟩⟩
  · exact absurd hd hlo
  · exact Or.inl ⟨a, rfl⟩
  · exact Or.inr (Or.inl ⟨a, b, rfl⟩)
  · exact Or.inr (Or.inr (Or.inl ⟨a, b, c, rfl⟩))
  · have hrest : rest = [] := by
      rw [hd] at hhi
      simp only [List.length_cons] at hhi
      exact List.length_eq_zero.mp (by omega)
    exact Or.inr (Or.inr (Or.inr ⟨a, b, c, d, by rw [hrest]⟩))

theorem ensureGo_stop (m fuel : Nat) (a e : Str) (h : m ≤ e.length) :
    ensureGo m fuel a e = e := by
  cases fuel with
  | zero => rfl
  | succ f =>
    simp only [ensureGo]
    rw [if_pos h]

theorem drop19_single {A2 : Str} (h : A2.length = 20) :
    (A2.drop 10).drop 9 = [A2.getD 19 0] := by
  have h19 : 19 < A2.length := by omega
  rw [List.drop_drop, show (10 + 9 : Nat) = 19 from rfl,
    List.drop_eq_getElem_cons h19, List.drop_eq_nil_of_le (by omega),
    List.getD_eq_getElem A2 0 h19]

theorem pad_slice5 {A2 : Str} (h : A2.length = 20) {e : Str}
    (he : e.length = 5) :
    ((A2.drop 10 ++ e ++ A2.take 10).drop 9).take 6 = A2.getD 19 0 :: e := by
  have hXlen : (A2.drop 10).length = 10 := by simp [h]
  have hXelen : (A2.drop 10 ++ e).length = 15 := by simp [h, he]
  rw [List.drop_append_eq_append_drop, List.drop_append_eq_append_drop,
    hXlen, hXelen, drop19_single h]
  rw [List.drop_zero, List.drop_zero, List.singleton_append,
    List.take_append_eq_append_take,
    List.take_of_length_le (by simp [he] : (A2.getD 19 0 :: e).length ≤ 6),
    show (6 : Nat) - (A2.getD 19 0 :: e).length = 0 from by simp [he],
    List.take_zero, List.append_nil]

theorem pad_slice4 {A2 : Str} (h : A2.length = 20) {e : Str}
    (he : e.length = 4) :
    ((A2.drop 10 ++ e ++ A2.take 10).drop 9).take 6 =
      A2.getD 19 0 :: (e ++ [A2.getD 0 0]) := by
  have hY : (A2.take 10).take 1 = [A2.getD 0 0] := by
    rcases A2 with _ | ⟨a, t⟩
    · simp at h
    · simp [List.take_take]
  have hXlen : (A2.drop 10).length = 10 := by simp [h]
  have hXelen : (A2.drop 10 ++ e).length = 14 := by simp [h, he]
  rw [List.drop_append_eq_append_drop, List.drop_append_eq_append_drop,
    hXlen, hXelen, drop19_single h]
  rw [List.drop_zero, List.drop_zero, List.singleton_append,
    List.take_append_eq_append_take,
    List.take_of_length_le (by simp [he] : (A2.getD 19 0 :: e).length ≤ 6),
    show (6 : Nat) - (A2.getD 19 0 :: e).length = 1 from by simp [he], hY]
  simp

theorem ensureGo_step (m f : Nat) (a e : Str) (h : ¬ m ≤ e.length) :
    ensureGo m (f + 1) a e =
      ensureGo m f (reorder a a)
        (if 0 < ((reorder a a).drop ((reorder a a).length / 2) ++ e ++
              (reorder a a).take ((reorder a a).length / 2)).length - m then
          ((((reorder a a).drop ((reorder a a).length / 2) ++ e ++
              (reorder a a).take ((reorder a a).length / 2)).drop
            ((((reorder a a).drop ((reorder a a).length / 2) ++ e ++
              (reorder a a).take ((reorder a a).length / 2)).length - m) /
                2)).take m)
        else
          ((reorder a a).drop ((reorder a a).length / 2) ++ e ++
            (reorder a a).take ((reorder a a).length / 2))) := by
  simp only [ensureGo]
  rw [if_neg h]

/-- Witness for C5 at a concrete titled name whose normal form is
title-free. -/
theorem C5_normalize_conditional_idempotent_witness :
    normalize_text_for_matching (normalize_text_for_matching
      (codes "株式会社ＡＢＣ")) =
      normalize_text_for_matching (codes "株式会社ＡＢＣ") ∧
    normalize_text_step2 (normalize_text_step2 (codes "株式会社ＡＢＣ")) =
      normalize_text_step2 (codes "株式会社ＡＢＣ") :=
  ⟨C5_normalize_conditional_idempotent.1 (codes "株式会社ＡＢＣ") (by decide),
   C5_normalize_conditional_idempotent.2 (codes "株式会社ＡＢＣ") (by decide)⟩

theorem generate_id_eq (n : Nat) :
    generate_id n = encodeWith ID_SALT ALPHA SEPS GUARDS 6 n := by
  simp only [generate_id, hashidsSetup_eq, ID_LENGTH]

theorem encode_code1 (n L : Nat) (A1 A2 : Str) (t0 : Nat)
    (hL : ALPHA.getD (n % 100 % ALPHA.length) 0 = L)
    (hA1 : reorder ALPHA ((L :: (ID_SALT ++ ALPHA)).take ALPHA.length) = A1)
    (hA2 : reorder A1 A1 = A2) (hA2len : A2.length = 20)
    (hlast : hashNum n A1 = [t0]) :
    encodeWith ID_SALT ALPHA SEPS GUARDS 6 n =
      [A2.getD 19 0, GUARDS.getD ((n % 100 + L) % 2) 0, L, t0,
       GUARDS.getD ((n % 100 + t0) % 2) 0, A2.getD 0 0] := by
  simp only [encodeWith]
  rw [hL, hA1, hlast, List.dropLast_concat]
  rw [if_neg (by simp)]
  simp only [ensureLength, List.getD_cons_zero, List.getD_cons_succ]
  rw [show GUARDS.length = 2 from by decide]
  rw [if_pos (by simp)]
  simp only [List.cons_append, List.nil_append]
  rw [ensureGo_step 6 6 A1 _ (by simp)]
  rw [hA2, hA2len]
  rw [show (20 : Nat) / 2 = 10 from rfl]
  have hplen : (A2.drop 10 ++
      [GUARDS.getD ((n % 100 + L) % 2) 0, L, t0,
       GUARDS.getD ((n % 100 + t0) % 2) 0] ++ A2.take 10).length = 24 := by
    simp [hA2len]
  rw [hplen, show (24 - 6 : Nat) = 18 from rfl]
  rw [if_pos (by omega : (0 : Nat) < 18), show (18 : Nat) / 2 = 9 from rfl]
  rw [pad_slice4 hA2len (by simp)]
  rw [ensureGo_stop 6 6 A2 _ (by simp)]
  simp

theorem encode_code2 (n L : Nat) (A1 A2 : Str) (t1 t0 : Nat)
    (hL : ALPHA.getD (n % 100 % ALPHA.length) 0 = L)
    (hA1 : reorder ALPHA ((L :: (ID_SALT ++ ALPHA)).take ALPHA.length) = A1)
    (hA2 : reorder A1 A1 = A2) (hA2len : A2.length = 20)
    (hlast : hashNum n A1 = [t1, t0]) :
    encodeWith ID_SALT ALPHA SEPS GUARDS 6 n =
      [A2.getD 19 0, GUARDS.getD ((n % 100 + L) % 2) 0, L, t1, t0,
       GUARDS.getD ((n % 100 + t1) % 2) 0] := by
  simp only [encodeWith]
  rw [hL, hA1, hlast, List.dropLast_concat]
  rw [if_neg (by simp)]
  simp only [ensureLength, List.getD_cons_zero, List.getD_cons_succ]
  rw [show GUARDS.length = 2 from by decide]
  rw [if_pos (by simp)]
  simp only [List.cons_append, List.nil_append]
  rw [ensureGo_step 6 6 A1 _ (by simp)]
  rw [hA2, hA2len]
  rw [show (20 : Nat) / 2 = 10 from rfl]
  have hplen : (A2.drop 10 ++
      [GUARDS.getD ((n % 100 + L) % 2) 0, L, t1, t0,
       GUARDS.getD ((n % 100 + t1) % 2) 0] ++ A2.take 10).length = 25 := by
    simp [hA2len]
  rw [hplen, show (25 - 6 : Nat) = 19 from rfl]
  rw [if_pos (by omega : (0 : Nat) < 19), show (19 : Nat) / 2 = 9 from rfl]
  rw [pad_slice5 hA2len (by simp)]
  rw [ensureGo_stop 6 6 A2 _ (by simp)]

theorem encode_code3 (n L : Nat) (A1 : Str) (t2 t1 t0 : Nat)
    (hL : ALPHA.getD (n % 100 % ALPHA.length) 0 = L)
    (hA1 : reorder ALPHA ((L :: (ID_SALT ++ ALPHA)).take ALPHA.length) = A1)
    (hlast : hashNum n A1 = [t2, t1, t0]) :
    encodeWith ID_SALT ALPHA SEPS GUARDS 6 n =
      [GUARDS.getD ((n % 100 + L) % 2) 0, L, t2, t1, t0,
       GUARDS.getD ((n % 100 + t2) % 2) 0] := by
  simp only [encodeWith]
  rw [hL, hA1, hlast, List.dropLast_concat]
  rw [if_neg (by simp)]
  simp only [ensureLength, List.getD_cons_zero, List.getD_cons_succ]
  rw [show GUARDS.length = 2 from by decide]
  rw [if_pos (by simp)]
  simp only [List.cons_append, List.nil_append]
  rw [ensureGo_stop 6 (6 + 1) A1 _ (by simp)]

theorem encode_code4 (n L : Nat) (A1 : Str) (t3 t2 t1 t0 : Nat)
    (hL : ALPHA.getD (n % 100 % ALPHA.length) 0 = L)
    (hA1 : reorder ALPHA ((L :: (ID_SALT ++ ALPHA)).take ALPHA.length) = A1)
    (hlast : hashNum n A1 = [t3, t2, t1, t0]) :
    encodeWith ID_SALT ALPHA SEPS GUARDS 6 n =
      [GUARDS.getD ((n % 100 + L) % 2) 0, L, t3, t2, t1, t0] := by
  simp only [encodeWith]
  rw [hL, hA1, hlast, List.dropLast_concat]
  rw [if_neg (by simp)]
  simp only [ensureLength, List.getD_cons_zero, List.getD_cons_succ]
  rw [show GUARDS.length = 2 from by decide]
  rw [if_neg (by simp)]
  rw [ensureGo_stop 6 (6 + 1) A1 _ (by simp)]

theorem decode_code1 (n L a19 g1 t0 g2 a0 : Nat) (A1 : Str)
    (hA1 : reorder ALPHA ((L :: (ID_SALT ++ ALPHA)).take ALPHA.length) = A1)
    (hres : unhash [t0] A1 = n)
    (hg1 : GUARDS.contains g1 = true) (hg2 : GUARDS.contains g2 = true)
    (ha19 : GUARDS.contains a19 = false) (ha0 : GUARDS.contains a0 = false)
    (hL : GUARDS.contains L = false) (ht0 : GUARDS.contains t0 = false) :
    decodeWith ID_SALT ALPHA GUARDS [a19, g1, L, t0, g2, a0] = n := by
  have hg1m : g1 ∈ GUARDS := by simpa using hg1
  have hg2m : g2 ∈ GUARDS := by simpa using hg2
  have ha19m : a19 ∉ GUARDS := by simpa using ha19
  have ha0m : a0 ∉ GUARDS := by simpa using ha0
  have hLm : L ∉ GUARDS := by simpa using hL
  have ht0m : t0 ∉ GUARDS := by simpa using ht0
  have hsplit : splitOnPred (fun c => GUARDS.contains c)
      [a19, g1, L, t0, g2, a0] = [[a19], [L, t0], [a0]] := by
    simp [splitOnPred, hg1m, hg2m, ha19m, ha0m, hLm, ht0m]
  simp only [decodeWith]
  rw [hsplit]
  rw [if_pos (by simp)]
  simp only [List.getD_cons_succ, List.getD_cons_zero]
  rw [hA1]
  exact hres

theorem decode_code2 (n L a19 g1 t1 t0 g2 : Nat) (A1 : Str)
    (hA1 : reorder ALPHA ((L :: (ID_SALT ++ ALPHA)).take ALPHA.length) = A1)
    (hres : unhash [t1, t0] A1 = n)
    (hg1 : GUARDS.contains g1 = true) (hg2 : GUARDS.contains g2 = true)
    (ha19 : GUARDS.contains a19 = false)
    (hL : GUARDS.contains L = false) (ht1 : GUARDS.contains t1 = false)
    (ht0 : GUARDS.contains t0 = false) :
    decodeWith ID_SALT ALPHA GUARDS [a19, g1, L, t1, t0, g2] = n := by
  have hg1m : g1 ∈ GUARDS := by simpa using hg1
  have hg2m : g2 ∈ GUARDS := by simpa using hg2
  have ha19m : a19 ∉ GUARDS := by simpa using ha19
  have hLm : L ∉ GUARDS := by simpa using hL
  have ht1m : t1 ∉ GUARDS := by simpa using ht1
  have ht0m : t0 ∉ GUARDS := by simpa using ht0
  have hsplit : splitOnPred (fun c => GUARDS.contains c)
      [a19, g1, L, t1, t0, g2] = [[a19], [L, t1, t0], []] := by
    simp [splitOnPred, hg1m, hg2m, ha19m, hLm, ht1m, ht0m]
  simp only [decodeWith]
  rw [hsplit]
  rw [if_pos (by simp)]
  simp only [List.getD_cons_succ, List.getD_cons_zero]
  rw [hA1]
  exact hres

theorem decode_code3 (n L g1 t2 t1 t0 g2 : Nat) (A1 : Str)
    (hA1 : reorder ALPHA ((L :: (ID_SALT ++ ALPHA)).take ALPHA.length) = A1)
    (hres : unhash [t2, t1, t0] A1 = n)
    (hg1 : GUARDS.contains g1 = true) (hg2 : GUARDS.contains g2 = true)
    (hL : GUARDS.contains L = false) (ht2 : GUARDS.contains t2 = false)
    (ht1 : GUARDS.contains t1 = false) (ht0 : GUARDS.contains t0 = false) :
    decodeWith ID_SALT ALPHA GUARDS [g1, L, t2, t1, t0, g2] = n := by
  have hg1m : g1 ∈ GUARDS := by simpa using hg1
  have hg2m : g2 ∈ GUARDS := by simpa using hg2
  have hLm : L ∉ GUARDS := by simpa using hL
  have ht2m : t2 ∉ GUARDS := by simpa using ht2
  have ht1m : t1 ∉ GUARDS := by simpa using ht1
  have ht0m : t0 ∉ GUARDS := by simpa using ht0
  have hsplit : splitOnPred (fun c => GUARDS.contains c)
      [g1, L, t2, t1, t0, g2] = [[], [L, t2, t1, t0], []] := by
    simp [splitOnPred, hg1m, hg2m, hLm, ht2m, ht1m, ht0m]
  simp only [decodeWith]
  rw [hsplit]
  rw [if_pos (by simp)]
  simp only [List.getD_cons_succ, List.getD_cons_zero]
  rw [hA1]
  exact hres

theorem decode_code4 (n L g1 t3 t2 t1 t0 : Nat) (A1 : Str)
    (hA1 : reorder ALPHA ((L :: (ID_SALT ++ ALPHA)).take ALPHA.length) = A1)
    (hres : unhash [t3, t2, t1, t0] A1 = n)
    (hg1 : GUARDS.contains g1 = true)
    (hL : GUARDS.contains L = false) (ht3 : GUARDS.contains t3 = false)
    (ht2 : GUARDS.contains t2 = false) (ht1 : GUARDS.contains t1 = false)
    (ht0 : GUARDS.contains t0 = false) :
    decodeWith ID_SALT ALPHA GUARDS [g1, L, t3, t2, t1, t0] = n := by
  have hg1m : g1 ∈ GUARDS := by simpa using hg1
  have hLm : L ∉ GUARDS := by simpa using hL
  have ht3m : t3 ∉ GUARDS := by simpa using ht3
  have ht2m : t2 ∉ GUARDS := by simpa using ht2
  have ht1m : t1 ∉ GUARDS := by simpa using ht1
  have ht0m : t0 ∉ GUARDS := by simpa using ht0
  have hsplit : splitOnPred (fun c => GUARDS.contains c)
      [g1, L, t3, t2, t1, t0] = [[], [L, t3, t2, t1, t0]] := by
    simp [splitOnPred, hg1m, hLm, ht3m, ht2m, ht1m, ht0m]
  simp only [decodeWith]
  rw [hsplit]
  rw [if_pos (by simp)]
  simp only [List.getD_cons_succ, List.getD_cons_zero]
  rw [hA1]
  exact hres

theorem generate_id_spec (n : Nat) (h1 : 1 ≤ n) (h2 : n < 160000) :
    (generate_id n).length = 6 ∧
    (∀ c ∈ generate_id n, ID_ALPHABET.contains c = true) ∧
    decodeWith ID_SALT ALPHA GUARDS (generate_id n) = n := by
  rw [generate_id_eq]
  have hALlen : ALPHA.length = 20 := by decide
  have hGlen : GUARDS.length = 2 := by decide
  have hALall : ∀ c ∈ ALPHA, ID_ALPHABET.contains c = true ∧
      GUARDS.contains c = false := by decide
  have hGall : ∀ c ∈ GUARDS, ID_ALPHABET.contains c = true ∧
      GUARDS.contains c = true := by decide
  obtain ⟨L, hL⟩ : ∃ x, ALPHA.getD (n % 100 % ALPHA.length) 0 = x := ⟨_, rfl⟩
  obtain ⟨A1, hA1⟩ :
      ∃ x, reorder ALPHA ((L :: (ID_SALT ++ ALPHA)).take ALPHA.length) = x :=
    ⟨_, rfl⟩
  obtain ⟨A2, hA2⟩ : ∃ x, reorder A1 A1 = x := ⟨_, rfl⟩
  have hidx : n % 100 % ALPHA.length < ALPHA.length := by
    rw [hALlen]
    exact Nat.mod_lt _ (by omega)
  have hLmem : L ∈ ALPHA := by
    rw [← hL, List.getD_eq_getElem ALPHA 0 hidx]
    exact List.getElem_mem hidx
  have hA1p : A1.Perm ALPHA := by
    rw [← hA1]
    exact reorder_perm _ _
  obtain ⟨hA1len, hA1nd, hA1mem⟩ := permA_facts hA1p
  have hA2p : A2.Perm ALPHA := by
    rw [← hA2]
    exact (reorder_perm A1 A1).trans hA1p
  obtain ⟨hA2len, hA2nd, hA2mem⟩ := permA_facts hA2p
  have hmemA1 : ∀ k : Nat, k < 20 → A1.getD k 0 ∈ A1 := by
    intro k hk
    have hk2 : k < A1.length := by omega
    rw [List.getD_eq_getElem A1 0 hk2]
    exact List.getElem_mem hk2
  have hmemA2 : ∀ k : Nat, k < 20 → A2.getD k 0 ∈ A2 := by
    intro k hk
    have hk2 : k < A2.length := by omega
    rw [List.getD_eq_getElem A2 0 hk2]
    exact List.getElem_mem hk2
  have hG2 : ∀ i : Nat, GUARDS.getD (i % 2) 0 ∈ GUARDS := by
    intro i
    have h2g : i % 2 < GUARDS.length := by
      rw [hGlen]
      exact Nat.mod_lt _ (by omega)
    rw [List.getD_eq_getElem GUARDS 0 h2g]
    exact List.getElem_mem h2g
  have hun : unhash (hashNum n A1) A1 = n := unhash_hashNum hA1nd (by omega) h1
  rcases digits_shape h1 h2 with ⟨k0, hdig⟩ | ⟨k0, k1, hdig⟩ |
    ⟨k0, k1, k2, hdig⟩ | ⟨k0, k1, k2, k3, hdig⟩
  · have hk0 : k0 < 20 := Nat.digits_lt_base (by omega) (by rw [hdig]; simp)
    have hlast : hashNum n A1 = [A1.getD k0 0] := by
      rw [hashNum_pos A1 (by omega) n h1, hA1len, hdig]
      rfl
    rw [encode_code1 n L A1 A2 (A1.getD k0 0) hL hA1 hA2 hA2len hlast]
    refine ⟨rfl, ?_, ?_⟩
    · intro c hc
      simp only [List.mem_cons, List.not_mem_nil, or_false] at hc
      rcases hc with hc | hc | hc | hc | hc | hc <;> rw [hc]
      · exact (hA2mem _ (hmemA2 19 (by omega))).1
      · exact (hGall _ (hG2 (n % 100 + L))).1
      · exact (hALall L hLmem).1
      · exact (hA1mem _ (hmemA1 k0 hk0)).1
      · exact (hGall _ (hG2 (n % 100 + A1.getD k0 0))).1
      · exact (hA2mem _ (hmemA2 0 (by omega))).1
    · refine decode_code1 n L (A2.getD 19 0)
        (GUARDS.getD ((n % 100 + L) % 2) 0) (A1.getD k0 0)
        (GUARDS.getD ((n % 100 + A1.getD k0 0) % 2) 0) (A2.getD 0 0) A1 hA1
        ?_ ?_ ?_ ?_ ?_ ?_ ?_
      · rw [← hlast]
        exact hun
      · exact (hGall _ (hG2 (n % 100 + L))).2
      · exact (hGall _ (hG2 (n % 100 + A1.getD k0 0))).2
      · exact (hA2mem _ (hmemA2 19 (by omega))).2
      · exact (hA2mem _ (hmemA2 0 (by omega))).2
      · exact (hALall L hLmem).2
      · exact (hA1mem _ (hmemA1 k0 hk0)).2
  · have hk0 : k0 < 20 := Nat.digits_lt_base (by omega) (by rw [hdig]; simp)
    have hk1 : k1 < 20 := Nat.digits_lt_base (by omega) (by rw [hdig]; simp)
    have hlast : hashNum n A1 = [A1.getD k1 0, A1.getD k0 0] := by
      rw [hashNum_pos A1 (by omega) n h1, hA1len, hdig]
      rfl
    rw [encode_code2 n L A1 A2 (A1.getD k1 0) (A1.getD k0 0) hL hA1 hA2
      hA2len hlast]
    refine ⟨rfl, ?_, ?_⟩
    · intro c hc
      simp only [List.mem_cons, List.not_mem_nil, or_false] at hc
      rcases hc with hc | hc | hc | hc | hc | hc <;> rw [hc]
      · exact (hA2mem _ (hmemA2 19 (by omega))).1
      · exact (hGall _ (hG2 (n % 100 + L))).1
      · exact (hALall L hLmem).1
      · exact (hA1mem _ (hmemA1 k1 hk1)).1
      · exact (hA1mem _ (hmemA1 k0 hk0)).1
      · exact (hGall _ (hG2 (n % 100 + A1.getD k1 0))).1
    · refine decode_code2 n L (A2.getD 19 0)
        (GUARDS.getD ((n % 100 + L) % 2) 0) (A1.getD k1 0) (A1.getD k0 0)
        (GUARDS.getD ((n % 100 + A1.getD k1 0) % 2) 0) A1 hA1
        ?_ ?_ ?_ ?_ ?_ ?_ ?_
      · rw [← hlast]
        exact hun
      · exact (hGall _ (hG2 (n % 100 + L))).2
      · exact (hGall _ (hG2 (n % 100 + A1.getD k1 0))).2
      · exact (hA2mem _ (hmemA2 19 (by omega))).2
      · exact (hALall L hLmem).2
      · exact (hA1mem _ (hmemA1 k1 hk1)).2
      · exact (hA1mem _ (hmemA1 k0 hk0)).2
  · have hk0 : k0 < 20 := Nat.digits_lt_base (by omega) (by rw [hdig]; simp)
    have hk1 : k1 < 20 := Nat.digits_lt_base (by omega) (by rw [hdig]; simp)
    have hk2d : k2 < 20 := Nat.digits_lt_base (by omega) (by rw [hdig]; simp)
    have hlast : hashNum n A1 = [A1.getD k2 0, A1.getD k1 0, A1.getD k0 0] := by
      rw [hashNum_pos A1 (by omega) n h1, hA1len, hdig]
      rfl
    rw [encode_code3 n L A1 (A1.getD k2 0) (A1.getD k1 0) (A1.getD k0 0)
      hL hA1 hlast]
    refine ⟨rfl, ?_, ?_⟩
    · intro c hc
      simp only [List.mem_cons, List.not_mem_nil, or_false] at hc
      rcases hc with hc | hc | hc | hc | hc | hc <;> rw [hc]
      · exact (hGall _ (hG2 (n % 100 + L))).1
      · exact (hALall L hLmem).1
      · exact (hA1mem _ (hmemA1 k2 hk2d)).1
      · exact (hA1mem _ (hmemA1 k1 hk1)).1
      · exact (hA1mem _ (hmemA1 k0 hk0)).1
      · exact (hGall _ (hG2 (n % 100 + A1.getD k2 0))).1
    · refine decode_code3 n L (GUARDS.getD ((n % 100 + L) % 2) 0)
        (A1.getD k2 0) (A1.getD k1 0) (A1.getD k0 0)
        (GUARDS.getD ((n % 100 + A1.getD k2 0) % 2) 0) A1 hA1
        ?_ ?_ ?_ ?_ ?_ ?_ ?_
      · rw [← hlast]
        exact hun
      · exact (hGall _ (hG2 (n % 100 + L))).2
      · exact (hGall _ (hG2 (n % 100 + A1.getD k2 0))).2
      · exact (hALall L hLmem).2
      · exact (hA1mem _ (hmemA1 k2 hk2d)).2
      · exact (hA1mem _ (hmemA1 k1 hk1)).2
      · exact (hA1mem _ (hmemA1 k0 hk0)).2
  · have hk0 : k0 < 20 := Nat.digits_lt_base (by omega) (by rw [hdig]; simp)
    have hk1 : k1 < 20 := Nat.digits_lt_base (by omega) (by rw [hdig]; simp)
    have hk2d : k2 < 20 := Nat.digits_lt_base (by omega) (by rw [hdig]; simp)
    have hk3 : k3 < 20 := Nat.digits_lt_base (by omega) (by rw [hdig]; simp)
    have hlast : hashNum n A1 =
        [A1.getD k3 0, A1.getD k2 0, A1.getD k1 0, A1.getD k0 0] := by
      rw [hashNum_pos A1 (by omega) n h1, hA1len, hdig]
      rfl
    rw [encode_code4 n L A1 (A1.getD k3 0) (A1.getD k2 0) (A1.getD k1 0)
      (A1.getD k0 0) hL hA1 hlast]
    refine ⟨rfl, ?_, ?_⟩
    · intro c hc
      simp only [List.mem_cons, List.not_mem_nil, or_false] at hc
      rcases hc with hc | hc | hc | hc | hc | hc <;> rw [hc]
      · exact (hGall _ (hG2 (n % 100 + L))).1
      · exact (hALall L hLmem).1
      · exact (hA1mem _ (hmemA1 k3 hk3)).1
      · exact (hA1mem _ (hmemA1 k2 hk2d)).1
      · exact (hA1mem _ (hmemA1 k1 hk1)).1
      · exact (hA1mem _ (hmemA1 k0 hk0)).1
    · refine decode_code4 n L (GUARDS.getD ((n % 100 + L) % 2) 0)
        (A1.getD k3 0) (A1.getD k2 0) (A1.getD k1 0) (A1.getD k0 0) A1 hA1
        ?_ ?_ ?_ ?_ ?_ ?_ ?_
      · rw [← hlast]
        exact hun
      · exact (hGall _ (hG2 (n % 100 + L))).2
      · exact (hALall L hLmem).2
      · exact (hA1mem _ (hmemA1 k3 hk3)).2
      · exact (hA1mem _ (hmemA1 k2 hk2d)).2
      · exact (hA1mem _ (hmemA1 k1 hk1)).2
      · exact (hA1mem _ (hmemA1 k0 hk0)).2

/-- C8: with the fixed salt, configured length 6 and the restricted
ambiguity-avoiding alphabet, the identifier issuer emits ids of exactly
the configured length, drawing only characters of the configured
alphabet, and is injective over the contiguous range 1..10000 (the issuer
is a pure function of the sequence number, so determinism is definitional;
injectivity holds because the guard-stripped code decodes back to the
sequence number). -/
theorem C8_id_issuer (n m : Nat) (hn1 : 1 ≤ n) (hn2 : n ≤ 10000)
    (hm1 : 1 ≤ m) (hm2 : m ≤ 10000) :
    (generate_id n).length = ID_LENGTH ∧
    (∀ c ∈ generate_id n, c ∈ ID_ALPHABET) ∧
    (generate_id n = generate_id m → n = m) := by
  have hn := generate_id_spec n hn1 (by omega)
  have hm := generate_id_spec m hm1 (by omega)
  refine ⟨hn.1, fun c hc => by simpa using hn.2.1 c hc, fun he => ?_⟩
  rw [← hn.2.2, ← hm.2.2, he]

/-- Witness for C8 at the first two sequence numbers. -/
theorem C8_id_issuer_witness :
    (generate_id 1).length = ID_LENGTH ∧
    (∀ c ∈ generate_id 1, c ∈ ID_ALPHABET) ∧
    (generate_id 1 = generate_id 2 → 1 = 2) :=
  C8_id_issuer 1 2 (by decide) (by decide) (by decide) (by decide)

end HospitalDB
